import Mathlib

/-!
Shallow embedding of the response-normalization pipeline of the GitHub MCP
server (src/src/tools/github.ts and the earlier revision kept at
src/unnamed/part_000): the unified cleaning function cleanGitHubResponse,
the human-readable formatter formatForHumans, the comment-pagination
records built by the getIssueComments / getPullRequestComments handlers,
and the error-to-text contract of the tool handlers.

JavaScript runtime values are modelled by the inductive type JVal.  A
missing object property is modelled by absence from the field list
(JavaScript distinguishes a property explicitly set to undefined from an
absent one, but this program only ever observes properties through reads
and through the `obj[key] !== undefined` test, for which the two agree, so
the embedding writes no undefined-valued fields and omits them instead).
Property access on null or undefined throws in JavaScript; fallible
computations therefore live in Except Unit, and the try/catch blocks of
the source become explicit recovery on the .error case.  Strings are
modelled by Lean String (code points instead of UTF-16 code units; no
claim depends on surrogate pairs).  Numbers are modelled by Int (no claim
depends on float behaviour or NaN).  The locale-dependent rendering
performed by Date#toLocaleString on a parseable value is a parameter
(loc); on a missing value, new Date(undefined).toLocaleString() yields
the string "Invalid Date" deterministically, which is modelled explicitly.
-/

namespace GitHubMCP

/-- JavaScript-like runtime values. -/
inductive JVal where
  | undef
  | null
  | bool (b : Bool)
  | num (n : Int)
  | str (s : String)
  | arr (elems : List JVal)
  | obj (fields : List (String × JVal))

/-- JavaScript truthiness (false, 0, empty string, null, undefined are falsy;
NaN is not representable in this model). -/
def truthy : JVal → Bool
  | .undef => false
  | .null => false
  | .bool b => b
  | .num n => n != 0
  | .str s => s != ""
  | .arr _ => true
  | .obj _ => true

/-- Values on which property access throws (null and undefined). -/
def isNullish : JVal → Bool
  | .null => true
  | .undef => true
  | _ => false

/-- JavaScript typeof v === 'object' (true for objects, arrays and null). -/
def isObjectType : JVal → Bool
  | .null => true
  | .arr _ => true
  | .obj _ => true
  | _ => false

/-- First-match lookup in an object's field list. -/
def lookupField : List (String × JVal) → String → Option JVal
  | [], _ => none
  | (k, v) :: rest, key => if k = key then some v else lookupField rest key

/-- Property read value[key]: throws on null/undefined, looks up own fields of
objects, and yields undefined (none) on every other value.  (String length and
index properties are not modelled; no key read by this program collides with
them.) -/
def jsGet : JVal → String → Except Unit (Option JVal)
  | .null, _ => .error ()
  | .undef, _ => .error ()
  | .obj fs, key => .ok (lookupField fs key)
  | _, _ => .ok none

/-- JavaScript a || b under truthiness. -/
def jsOr (a b : JVal) : JVal := if truthy a then a else b

mutual

/-- JavaScript string conversion as used by template literals: String(v).
Arrays stringify as their elements joined with commas, where null and
undefined elements become empty strings. -/
def jvalDisplay : JVal → String
  | .undef => "undefined"
  | .null => "null"
  | .bool b => cond b "true" "false"
  | .num n => toString n
  | .str s => s
  | .arr xs => String.intercalate "," (dispList xs)
  | .obj _ => "[object Object]"

/-- Per-element string conversion for array joining. -/
def dispList : List JVal → List String
  | [] => []
  | v :: rest => (if isNullish v then "" else jvalDisplay v) :: dispList rest

end

/-- Display of a possibly-undefined property read, as in a template literal. -/
def dispOpt (v : Option JVal) : String := jvalDisplay (v.getD .undef)

/-- JavaScript s.substring(0, n) (first n code units, here code points). -/
def jsSubstring (s : String) (n : Nat) : String := ⟨s.data.take n⟩

/-- Array.prototype.join(sep): elements converted by String(), with null and
undefined elements rendered as empty strings. -/
def jsJoin (xs : List JVal) (sep : String) : String :=
  String.intercalate sep (dispList xs)

/-- Field list contributed by an unconditional assignment guarded only by the
`!== undefined` presence test. -/
def optField (k : String) : Option JVal → List (String × JVal)
  | some v => [(k, v)]
  | none => []

/-- Field list contributed by an assignment guarded by truthiness of the
source value. -/
def condField (k : String) : Option JVal → List (String × JVal)
  | some v => if truthy v then [(k, v)] else []
  | none => []

/-!
Generic allow-list step of cleanGitHubResponse (removeExcessiveFields in the
source, github.ts lines 1675-1722; identical in src/unnamed/part_000 and in
github.bak.ts).
-/

/-- Fixed key set kept by the generic cleaning step (keysToKeep in the
source). -/
def keysToKeep : List String :=
  ["id", "name", "login", "full_name", "html_url", "description", "private",
   "created_at", "updated_at", "pushed_at", "language", "default_branch",
   "number", "title", "state", "body", "sha"]

/-- Long-text truncation applied while copying a kept key: string values of
body or description longer than 300 characters are cut to their first 300
characters plus an ellipsis marker. -/
def truncVal (k : String) (v : JVal) : JVal :=
  match v with
  | .str s =>
      if (k = "body" ∨ k = "description") ∧ 300 < s.length then
        .str (jsSubstring s 300 ++ "...")
      else
        .str s
  | w => w

/-- Copying loop of removeExcessiveFields: for each key of ks (in order), if
present on the source object, keep it (truncated where applicable). -/
def cleanKeys (o : JVal) : List String → Except Unit (List (String × JVal))
  | [] => .ok []
  | k :: ks => do
      let v ← jsGet o k
      let rest ← cleanKeys o ks
      match v with
      | some w => .ok ((k, truncVal k w) :: rest)
      | none => .ok rest

/-- Owner/user flattening of removeExcessiveFields: if obj[key] is a truthy
value of typeof 'object' whose login property is truthy, the flattened field
value is that login. -/
def flattenRef (o : JVal) (key : String) : Except Unit (Option JVal) := do
  let v ← jsGet o key
  match v with
  | some w =>
      if truthy w ∧ isObjectType w then do
        let l ← jsGet w "login"
        match l with
        | some lv => pure (if truthy lv then some lv else none)
        | none => pure none
      else
        pure none
  | none => pure none

/-- Generic allow-list step (removeExcessiveFields in the source): keep the
keysToKeep fields that are present, truncating long body/description strings,
then flatten owner and user references to their login. -/
def removeExcessiveFields (o : JVal) : Except Unit (List (String × JVal)) := do
  let base ← cleanKeys o keysToKeep
  let ow ← flattenRef o "owner"
  let us ← flattenRef o "user"
  pure (base ++ optField "owner" ow ++ optField "user" us)

/-!
Kind-specific augmentation of cleanGitHubResponse (github.ts lines 1724-1808;
the earlier revision src/unnamed/part_000 additionally handles the kinds
'user', 'comment' and 'comments', lines 1558-1653 there).
-/

/-- Repository augmentation: topics and clone_url and visibility when truthy,
open_issues_count when present, stars renamed from stargazers_count when
present. -/
def cleanRepoOne (d : JVal) : Except Unit (List (String × JVal)) := do
  let base ← removeExcessiveFields d
  let topics ← jsGet d "topics"
  let openIssues ← jsGet d "open_issues_count"
  let cloneUrl ← jsGet d "clone_url"
  let stargazers ← jsGet d "stargazers_count"
  let visibility ← jsGet d "visibility"
  pure (base ++ condField "topics" topics ++ optField "open_issues_count" openIssues
    ++ condField "clone_url" cloneUrl ++ optField "stars" stargazers
    ++ condField "visibility" visibility)

/-- Guarded nested read a && a[key], keeping the inner value only when both
the outer and the inner value are truthy (used for pr.head.ref, pr.base.ref
and comment.user.login). -/
def refOf (outer : Option JVal) (key : String) : Except Unit (Option JVal) :=
  match outer with
  | some h =>
      if truthy h then do
        let r ← jsGet h key
        pure (match r with
          | some rv => if truthy rv then some rv else none
          | none => none)
      else
        pure none
  | none => pure none

/-- Pull-request augmentation: merged_at when truthy, head_branch/base_branch
flattened from head.ref/base.ref, merged when present. -/
def cleanPrOne (d : JVal) : Except Unit (List (String × JVal)) := do
  let base ← removeExcessiveFields d
  let mergedAt ← jsGet d "merged_at"
  let head ← jsGet d "head"
  let headBranch ← refOf head "ref"
  let baseRefSrc ← jsGet d "base"
  let baseBranch ← refOf baseRefSrc "ref"
  let merged ← jsGet d "merged"
  pure (base ++ condField "merged_at" mergedAt ++ optField "head_branch" headBranch
    ++ optField "base_branch" baseBranch ++ optField "merged" merged)

/-- Label flattening: typeof l === 'string' ? l : l.name (property access on a
null or undefined element throws). -/
def labelFlat (l : JVal) : Except Unit JVal :=
  match l with
  | .str s => .ok (.str s)
  | w => do
      let n ← jsGet w "name"
      pure (n.getD .undef)

/-- Assignee flattening: typeof a === 'string' ? a : a.login. -/
def assigneeFlat (a : JVal) : Except Unit JVal :=
  match a with
  | .str s => .ok (.str s)
  | w => do
      let n ← jsGet w "login"
      pure (n.getD .undef)

/-- Issue augmentation: closed_at when truthy; labels and assignees when
truthy, flattened element-wise when they are arrays and kept as-is
otherwise. -/
def cleanIssueOne (d : JVal) : Except Unit (List (String × JVal)) := do
  let base ← removeExcessiveFields d
  let closedAt ← jsGet d "closed_at"
  let labels ← jsGet d "labels"
  let labelsFields ← match labels with
    | some l =>
        if truthy l then
          match l with
          | .arr xs => do
              let ys ← xs.mapM labelFlat
              pure [("labels", JVal.arr ys)]
          | w => pure [("labels", w)]
        else
          pure []
    | none => pure []
  let assignees ← jsGet d "assignees"
  let assigneesFields ← match assignees with
    | some a =>
        if truthy a then
          match a with
          | .arr xs => do
              let ys ← xs.mapM assigneeFlat
              pure [("assignees", JVal.arr ys)]
          | w => pure [("assignees", w)]
        else
          pure []
    | none => pure []
  pure (base ++ condField "closed_at" closedAt ++ labelsFields ++ assigneesFields)

/-- Body truncation of the dedicated comment kind: comment.body.length > 1000
cuts string bodies to 1000 characters plus the ellipsis marker.  On an array
(or an object carrying a numeric length field) longer than 1000 the source
would call substring on a non-string and throw. -/
def commentBody : JVal → Except Unit JVal
  | .str s => .ok (if 1000 < s.length then .str (jsSubstring s 1000 ++ "...") else .str s)
  | .arr xs => if 1000 < xs.length then .error () else .ok (.arr xs)
  | .obj fs =>
      match lookupField fs "length" with
      | some (.num n) => if 1000 < n then .error () else .ok (.obj fs)
      | _ => .ok (.obj fs)
  | w => .ok w

/-- Body field of the dedicated comment kind: kept only when truthy,
truncated by commentBody. -/
def commentBodyFields : Option JVal → Except Unit (List (String × JVal))
  | some bv =>
      if truthy bv then do
        let c ← commentBody bv
        pure [("body", c)]
      else
        pure []
  | none => pure []

/-- Comment cleaning of the dedicated comment kind (src/unnamed/part_000
lines 1576-1621): keep id, created_at, updated_at, html_url, the truthy body
truncated at 1000 characters, and the user flattened to its login.  (The
source assigns id/created_at/updated_at/html_url unconditionally, leaving
undefined-valued properties when absent; the embedding omits them, which is
observationally equal.) -/
def cleanCommentOne (d : JVal) : Except Unit (List (String × JVal)) := do
  let i ← jsGet d "id"
  let ca ← jsGet d "created_at"
  let ua ← jsGet d "updated_at"
  let hu ← jsGet d "html_url"
  let b ← jsGet d "body"
  let bodyFields ← commentBodyFields b
  let u ← jsGet d "user"
  let userFlat ← refOf u "login"
  pure (optField "id" i ++ optField "created_at" ca ++ optField "updated_at" ua
    ++ optField "html_url" hu ++ bodyFields ++ optField "user" userFlat)

/-!
User formatting (the 'user' case of formatForHumans, github.ts lines
1890-1906; in src/unnamed/part_000 the same text is also produced by the
'user' case of cleanGitHubResponse, lines 1558-1574 there).
-/

/-- Single-user block of the user formatter. -/
def formatUserSingle (d : JVal) : Except Unit String := do
  let login ← jsGet d "login"
  let name ← jsGet d "name"
  let s0 := "用户: " ++ jvalDisplay (jsOr (login.getD .undef) (name.getD .undef)) ++ "\n"
  let hu ← jsGet d "html_url"
  let s1 := s0 ++ (match hu with
    | some h => if truthy h then "主页: " ++ jvalDisplay h ++ "\n" else ""
    | none => "")
  let de ← jsGet d "description"
  pure (s1 ++ (match de with
    | some v => if truthy v then "描述: " ++ jvalDisplay v ++ "\n" else ""
    | none => ""))

/-- Numbered per-user entries of the user formatter's array branch. -/
def userEntries : Nat → List JVal → Except Unit String
  | _, [] => .ok ""
  | i, u :: rest => do
      let login ← jsGet u "login"
      let name ← jsGet u "name"
      let line1 := toString (i + 1) ++ ". "
        ++ jvalDisplay (jsOr (login.getD .undef) (name.getD .undef)) ++ "\n"
      let hu ← jsGet u "html_url"
      let l2 := match hu with
        | some h => if truthy h then "   主页: " ++ jvalDisplay h ++ "\n" else ""
        | none => ""
      let de ← jsGet u "description"
      let l3 := match de with
        | some v => if truthy v then "   描述: " ++ jvalDisplay v ++ "\n" else ""
        | none => ""
      let restS ← userEntries (i + 1) rest
      pure (line1 ++ l2 ++ l3 ++ "\n" ++ restS)

/-- User formatter (shared text of formatForHumans case 'user' and of the
earlier revision's cleanGitHubResponse case 'user'). -/
def formatUser (d : JVal) : Except Unit String :=
  match d with
  | .arr xs =>
      if xs.length = 0 then .ok "未找到任何用户。"
      else do
        let es ← userEntries 0 xs
        pure ("找到 " ++ toString xs.length ++ " 个用户:\n\n" ++ es)
  | _ => formatUserSingle d

/-!
Comment-list rendering (the 'comments' case of the earlier revision's
cleanGitHubResponse, src/unnamed/part_000 lines 1623-1653).
-/

/-- Numbered per-comment entries of the comment-list rendering; loc models
Date#toLocaleString on a present value. -/
def commentsEntries (loc : JVal → String) : Nat → List JVal → Except Unit String
  | _, [] => .ok ""
  | i, c :: rest => do
      let u ← jsGet c "user"
      let line1 := toString (i + 1) ++ ". "
        ++ jvalDisplay (jsOr (u.getD .undef) (.str "匿名用户")) ++ " 评论道:\n"
      let ca ← jsGet c "created_at"
      let l2 := match ca with
        | some v => if truthy v then "   评论于: " ++ loc v ++ "\n" else ""
        | none => ""
      let b ← jsGet c "body"
      let l3 := match b with
        | some v => if truthy v then "   内容: " ++ jvalDisplay v ++ "\n" else ""
        | none => ""
      let hu ← jsGet c "html_url"
      let l4 := match hu with
        | some v => if truthy v then "   链接: " ++ jvalDisplay v ++ "\n" else ""
        | none => ""
      let restS ← commentsEntries loc (i + 1) rest
      pure (line1 ++ l2 ++ l3 ++ l4 ++ "\n" ++ restS)

/-- Comment-list case of the earlier revision's cleaner: without a comments
array it reports failure text; otherwise it renders pagination info followed
by the numbered comments (or the empty-page sentence). -/
def cleanCommentsCase (loc : JVal → String) (d : JVal) : Except Unit JVal := do
  let comments ← jsGet d "comments"
  match comments with
  | some (.arr xs) => do
      let p ← jsGet d "pagination"
      let pagText ← match p with
        | some pv =>
            if truthy pv then do
              let cp ← jsGet pv "current_page"
              let hp ← jsGet pv "has_prev_page"
              let hn ← jsGet pv "has_next_page"
              let tc ← jsGet pv "total_count"
              pure ("页码: " ++ dispOpt cp ++ "\n"
                ++ (if truthy (hp.getD .undef) then "有上一页\n" else "没有上一页\n")
                ++ (if truthy (hn.getD .undef) then "有下一页\n" else "没有下一页\n")
                ++ "本页评论数: " ++ dispOpt tc ++ "\n\n")
            else
              pure ""
        | none => pure ""
      if xs.length = 0 then
        pure (.str (pagText ++ "本页没有评论。"))
      else do
        let es ← commentsEntries loc 0 xs
        pure (.str (pagText ++ "评论列表:\n\n" ++ es))
  | _ => pure (.str "无法获取评论数据。")

/-!
Dispatch of cleanGitHubResponse.  cleanInnerTS is the body of the try block
in the current github.ts (kinds repository, pull_request, issue, plus the
generic default); cleanInnerV0 is the body of the try block in the earlier
revision src/unnamed/part_000, which additionally handles 'user', 'comment'
and 'comments'.  The surrounding catch returns the original input.
-/

/-- Body of the try block of cleanGitHubResponse in the current github.ts. -/
def cleanInnerTS (d : JVal) (t : String) : Except Unit JVal :=
  match t with
  | "repository" =>
      match d with
      | .arr xs => do
          let ys ← xs.mapM (fun x => do pure (JVal.obj (← cleanRepoOne x)))
          pure (.arr ys)
      | _ => do pure (.obj (← cleanRepoOne d))
  | "pull_request" =>
      match d with
      | .arr xs => do
          let ys ← xs.mapM (fun x => do pure (JVal.obj (← cleanPrOne x)))
          pure (.arr ys)
      | _ => do pure (.obj (← cleanPrOne d))
  | "issue" =>
      match d with
      | .arr xs => do
          let ys ← xs.mapM (fun x => do pure (JVal.obj (← cleanIssueOne x)))
          pure (.arr ys)
      | _ => do pure (.obj (← cleanIssueOne d))
  | _ =>
      match d with
      | .arr xs => do
          let ys ← xs.mapM (fun x => do pure (JVal.obj (← removeExcessiveFields x)))
          pure (.arr ys)
      | _ => do pure (.obj (← removeExcessiveFields d))

/-- Unified cleaning function of the current github.ts: on any exception the
catch returns the original data. -/
def cleanGitHubResponse (d : JVal) (t : String) : JVal :=
  match cleanInnerTS d t with
  | .ok v => v
  | .error _ => d

/-- Body of the try block of cleanGitHubResponse in the earlier revision
(src/unnamed/part_000), whose 'user' and 'comments' cases return formatted
strings instead of cleaned records. -/
def cleanInnerV0 (loc : JVal → String) (d : JVal) (t : String) : Except Unit JVal :=
  match t with
  | "user" => do pure (JVal.str (← formatUser d))
  | "comment" =>
      match d with
      | .arr xs => do
          let ys ← xs.mapM (fun x => do pure (JVal.obj (← cleanCommentOne x)))
          pure (.arr ys)
      | _ => do pure (.obj (← cleanCommentOne d))
  | "comments" => cleanCommentsCase loc d
  | _ => cleanInnerTS d t

/-- Unified cleaning function of the earlier revision: on any exception the
catch returns the original data. -/
def cleanGitHubResponseV0 (loc : JVal → String) (d : JVal) (t : String) : JVal :=
  match cleanInnerV0 loc d t with
  | .ok v => v
  | .error _ => d

/-!
Human-readable formatter (formatForHumans, github.ts lines 1815-1926; the
earlier revision's copy is textually identical).  The parameter loc models
the locale-dependent rendering new Date(v).toLocaleString() of a present
value v; a missing value yields the deterministic string "Invalid Date".
-/

/-- Rendering of new Date(x).toLocaleString(): on a missing (undefined)
value the result is the string "Invalid Date"; on a present value it is the
environment's locale rendering, the parameter loc. -/
def jsDate (loc : JVal → String) : Option JVal → String
  | none => "Invalid Date"
  | some v => loc v

/-- Output line contributed by a truthiness-guarded append of
label + value. -/
def condSeg (label : String) : Option JVal → List String
  | some w => if truthy w then [label ++ jvalDisplay w ++ "\n"] else []
  | none => []

/-- Output line contributed by a truthiness-guarded append of
label + new Date(value).toLocaleString(). -/
def condDateSeg (loc : JVal → String) (label : String) : Option JVal → List String
  | some w => if truthy w then [label ++ loc w ++ "\n"] else []
  | none => []

/-- Topics line: guarded by topics && topics.length > 0, joined with a comma
and space (label is the literal line prefix, indented in the array branch).
Calling join on a truthy non-array with a positive length (a nonempty
string, or an object with a positive numeric length field) throws in the
source. -/
def topicsSegs (label : String) : Option JVal → Except Unit (List String)
  | none => .ok []
  | some tv =>
      if truthy tv then
        match tv with
        | .arr xs =>
            .ok (if 0 < xs.length then [label ++ jsJoin xs ", " ++ "\n"] else [])
        | .str s => if 0 < s.length then .error () else .ok []
        | .obj fs =>
            match lookupField fs "length" with
            | some (.num n) => if 0 < n then .error () else .ok []
            | _ => .ok []
        | _ => .ok []
      else
        .ok []

/-- Strict comparison data.state === 'open'. -/
def stateOpen : Option JVal → Bool
  | some (.str s) => s = "open"
  | _ => false

/-- Lines of the single-repository block of formatForHumans (name, optional
description, link, optional language, optional stars, optional topics, and
the unconditional updated_at timestamp). -/
def repoSingleSegs (loc : JVal → String) (d : JVal) : Except Unit (List String) := do
  let fullName ← jsGet d "full_name"
  let name ← jsGet d "name"
  let de ← jsGet d "description"
  let hu ← jsGet d "html_url"
  let lang ← jsGet d "language"
  let stars ← jsGet d "stars"
  let topics ← jsGet d "topics"
  let tsegs ← topicsSegs "主题标签: " topics
  let ua ← jsGet d "updated_at"
  pure (["仓库: " ++ jvalDisplay (jsOr (fullName.getD .undef) (name.getD .undef)) ++ "\n"]
    ++ condSeg "描述: " de
    ++ ["链接: " ++ dispOpt hu ++ "\n"]
    ++ condSeg "主要语言: " lang
    ++ condSeg "星标数: " stars
    ++ tsegs
    ++ ["更新于: " ++ jsDate loc ua ++ "\n"])

/-- Numbered repository entry of the array branch (adds the belongsTo owner
line and ends with a blank line). -/
def repoEntry (loc : JVal → String) (i : Nat) (r : JVal) : Except Unit String := do
  let fullName ← jsGet r "full_name"
  let name ← jsGet r "name"
  let de ← jsGet r "description"
  let hu ← jsGet r "html_url"
  let lang ← jsGet r "language"
  let stars ← jsGet r "stars"
  let belongsTo ← jsGet r "belongsTo"
  let topics ← jsGet r "topics"
  let tsegs ← topicsSegs "   主题标签: " topics
  let ua ← jsGet r "updated_at"
  pure (String.join ([toString (i + 1) ++ ". "
      ++ jvalDisplay (jsOr (fullName.getD .undef) (name.getD .undef)) ++ "\n"]
    ++ condSeg "   描述: " de
    ++ ["   链接: " ++ dispOpt hu ++ "\n"]
    ++ condSeg "   主要语言: " lang
    ++ condSeg "   星标数: " stars
    ++ condSeg "   仓库所有者: " belongsTo
    ++ tsegs
    ++ ["   更新于: " ++ jsDate loc ua ++ "\n\n"]))

/-- Concatenation of the numbered repository entries. -/
def repoEntries (loc : JVal → String) : Nat → List JVal → Except Unit String
  | _, [] => .ok ""
  | i, r :: rest => do
      let e ← repoEntry loc i r
      let restS ← repoEntries loc (i + 1) rest
      pure (e ++ restS)

/-- Single pull-request block of formatForHumans. -/
def prSingle (loc : JVal → String) (d : JVal) : Except Unit String := do
  let num ← jsGet d "number"
  let title ← jsGet d "title"
  let state ← jsGet d "state"
  let user ← jsGet d "user"
  let ca ← jsGet d "created_at"
  let merged ← jsGet d "merged"
  let ma ← jsGet d "merged_at"
  let hu ← jsGet d "html_url"
  pure ("拉取请求 #" ++ dispOpt num ++ ": " ++ dispOpt title ++ "\n"
    ++ "状态: " ++ (if stateOpen state then "开放" else "关闭") ++ "\n"
    ++ String.join (condSeg "创建者: " user)
    ++ String.join (condDateSeg loc "创建于: " ca)
    ++ (match merged with
      | some m => "已合并: " ++ (if truthy m then "是" else "否") ++ "\n"
      | none => "")
    ++ String.join (condDateSeg loc "合并于: " ma)
    ++ "链接: " ++ dispOpt hu ++ "\n")

/-- Numbered pull-request entry of the array branch. -/
def prEntry (loc : JVal → String) (i : Nat) (pr : JVal) : Except Unit String := do
  let num ← jsGet pr "number"
  let title ← jsGet pr "title"
  let state ← jsGet pr "state"
  let user ← jsGet pr "user"
  let ca ← jsGet pr "created_at"
  let merged ← jsGet pr "merged"
  let ma ← jsGet pr "merged_at"
  let hu ← jsGet pr "html_url"
  pure (toString (i + 1) ++ ". [" ++ (if stateOpen state then "开放" else "关闭") ++ "] #"
      ++ dispOpt num ++ ": " ++ dispOpt title ++ "\n"
    ++ String.join (condSeg "   创建者: " user)
    ++ String.join (condDateSeg loc "   创建于: " ca)
    ++ (match merged with
      | some m => "   已合并: " ++ (if truthy m then "是" else "否") ++ "\n"
      | none => "")
    ++ String.join (condDateSeg loc "   合并于: " ma)
    ++ "   链接: " ++ dispOpt hu ++ "\n\n")

/-- Concatenation of the numbered pull-request entries. -/
def prEntries (loc : JVal → String) : Nat → List JVal → Except Unit String
  | _, [] => .ok ""
  | i, pr :: rest => do
      let e ← prEntry loc i pr
      let restS ← prEntries loc (i + 1) rest
      pure (e ++ restS)

/-- Single issue block of formatForHumans. -/
def issueSingle (loc : JVal → String) (d : JVal) : Except Unit String := do
  let num ← jsGet d "number"
  let title ← jsGet d "title"
  let state ← jsGet d "state"
  let user ← jsGet d "user"
  let ca ← jsGet d "created_at"
  let cl ← jsGet d "closed_at"
  let hu ← jsGet d "html_url"
  pure ("议题 #" ++ dispOpt num ++ ": " ++ dispOpt title ++ "\n"
    ++ "状态: " ++ (if stateOpen state then "开放" else "关闭") ++ "\n"
    ++ String.join (condSeg "创建者: " user)
    ++ String.join (condDateSeg loc "创建于: " ca)
    ++ String.join (condDateSeg loc "关闭于: " cl)
    ++ "链接: " ++ dispOpt hu ++ "\n")

/-- Numbered issue entry of the array branch. -/
def issueEntry (loc : JVal → String) (i : Nat) (issue : JVal) : Except Unit String := do
  let num ← jsGet issue "number"
  let title ← jsGet issue "title"
  let state ← jsGet issue "state"
  let user ← jsGet issue "user"
  let ca ← jsGet issue "created_at"
  let cl ← jsGet issue "closed_at"
  let hu ← jsGet issue "html_url"
  pure (toString (i + 1) ++ ". [" ++ (if stateOpen state then "开放" else "关闭") ++ "] #"
      ++ dispOpt num ++ ": " ++ dispOpt title ++ "\n"
    ++ String.join (condSeg "   创建者: " user)
    ++ String.join (condDateSeg loc "   创建于: " ca)
    ++ String.join (condDateSeg loc "   关闭于: " cl)
    ++ "   链接: " ++ dispOpt hu ++ "\n\n")

/-- Concatenation of the numbered issue entries. -/
def issueEntries (loc : JVal → String) : Nat → List JVal → Except Unit String
  | _, [] => .ok ""
  | i, issue :: rest => do
      let e ← issueEntry loc i issue
      let restS ← issueEntries loc (i + 1) rest
      pure (e ++ restS)

/-- Own enumerable entries as produced by Object.entries: fields of objects,
indexed elements of arrays and of strings, nothing for primitives, and a
TypeError on null/undefined. -/
def jsEntries : JVal → Except Unit (List (String × JVal))
  | .null => .error ()
  | .undef => .error ()
  | .obj fs => .ok fs
  | .arr xs => .ok (xs.enum.map (fun p => (toString p.1, p.2)))
  | .str s => .ok (s.data.enum.map (fun p => (toString p.1, JVal.str (String.mk [p.2]))))
  | _ => .ok []

/-- Key: value rendering of Object.entries output joined by sep. -/
def entryLines (fs : List (String × JVal)) (sep : String) : String :=
  String.intercalate sep (fs.map (fun p => p.1 ++ ": " ++ jvalDisplay p.2))

/-- Numbered items of the generic array dump. -/
def defaultArrItems : Nat → List JVal → Except Unit (List String)
  | _, [] => .ok []
  | i, item :: rest => do
      let fs ← jsEntries item
      let restS ← defaultArrItems (i + 1) rest
      pure ((toString (i + 1) ++ ". " ++ entryLines fs "\n   " ++ "\n") :: restS)

/-- Body of the try block of formatForHumans. -/
def formatInner (loc : JVal → String) (d : JVal) (t : String) : Except Unit String :=
  match t with
  | "repository" =>
      match d with
      | .arr xs =>
          if xs.length = 0 then .ok "未找到任何仓库。"
          else do
            let es ← repoEntries loc 0 xs
            pure ("找到 " ++ toString xs.length ++ " 个仓库:\n\n" ++ es)
      | _ => do pure (String.join (← repoSingleSegs loc d))
  | "pull_request" =>
      match d with
      | .arr xs =>
          if xs.length = 0 then .ok "未找到任何拉取请求。"
          else do
            let es ← prEntries loc 0 xs
            pure ("找到 " ++ toString xs.length ++ " 个拉取请求:\n\n" ++ es)
      | _ => prSingle loc d
  | "issue" =>
      match d with
      | .arr xs =>
          if xs.length = 0 then .ok "未找到任何议题。"
          else do
            let es ← issueEntries loc 0 xs
            pure ("找到 " ++ toString xs.length ++ " 个议题:\n\n" ++ es)
      | _ => issueSingle loc d
  | "user" => formatUser d
  | _ =>
      match d with
      | .arr xs => do
          let items ← defaultArrItems 0 xs
          pure ("数据列表:\n\n" ++ String.intercalate "\n" items)
      | _ => do
          let fs ← jsEntries d
          pure ("数据详情:\n\n" ++ entryLines fs "\n" ++ "\n")

/-- Indentation padding for the pretty-printed JSON fallback. -/
def spacesPad (n : Nat) : String := String.mk (List.replicate n ' ')

/-- JSON string quoting with the basic escapes (quote, backslash, newline,
tab, carriage return; other control characters are not modelled since no
claim exercises the fallback). -/
def jsonQuote (s : String) : String :=
  "\"" ++ String.join (s.data.map (fun c =>
    if c = '"' then "\\\""
    else if c = '\\' then "\\\\"
    else if c = '\n' then "\\n"
    else if c = '\t' then "\\t"
    else if c = '\r' then "\\r"
    else String.mk [c])) ++ "\""

mutual

/-- JSON.stringify(v, null, 2) at indentation ind: undefined nested in an
array serializes as null, undefined-valued object fields are skipped. -/
def jsonVal : Nat → JVal → String
  | _, .undef => "null"
  | _, .null => "null"
  | _, .bool b => cond b "true" "false"
  | _, .num n => toString n
  | _, .str s => jsonQuote s
  | ind, .arr xs =>
      match xs with
      | [] => "[]"
      | _ => "[\n" ++ String.intercalate ",\n" (jsonArrItems (ind + 2) xs)
          ++ "\n" ++ spacesPad ind ++ "]"
  | ind, .obj fs =>
      match jsonObjItems (ind + 2) fs with
      | [] => "\x7b\x7d"
      | items => "\x7b\n" ++ String.intercalate ",\n" items
          ++ "\n" ++ spacesPad ind ++ "\x7d"

/-- Indented serializations of array elements. -/
def jsonArrItems : Nat → List JVal → List String
  | _, [] => []
  | ind, v :: rest => (spacesPad ind ++ jsonVal ind v) :: jsonArrItems ind rest

/-- Indented serializations of object fields, skipping undefined values. -/
def jsonObjItems : Nat → List (String × JVal) → List String
  | _, [] => []
  | ind, (k, v) :: rest =>
      match v with
      | .undef => jsonObjItems ind rest
      | w => (spacesPad ind ++ jsonQuote k ++ ": " ++ jsonVal ind w) :: jsonObjItems ind rest

end

/-- Human-readable formatter: on any exception the catch falls back to a raw
JSON dump of the input (JSON.stringify of undefined is undefined, which the
template literal renders as the word undefined). -/
def formatForHumans (loc : JVal → String) (d : JVal) (t : String) : String :=
  match formatInner loc d t with
  | .ok s => s
  | .error _ => "数据:\n" ++ (match d with | .undef => "undefined" | w => jsonVal 0 w)

/-!
Comment pagination records and tool handlers.  A tool handler resolves with
a single text content item; upstream octokit calls are modelled as Except
String results carrying the thrown error message.  Internal TypeErrors
(property access on a null element) carry an environment-specific message,
abstracted as the parameter em.
-/

/-- Pagination record built by the comment-listing handlers. -/
structure CommentsPagination where
  current_page : Int
  total_comments : JVal
  has_next_page : Bool
  next_page : Option Int

/-- Pagination derivation of the getIssueComments handler (github.ts lines
1031-1037, page size 30). -/
def issueCommentsPagination (count : Nat) (page : Int) : CommentsPagination where
  current_page := page
  total_comments := if 30 ≤ count then .str "30+" else .num count
  has_next_page := 30 ≤ count
  next_page := if 30 ≤ count then some (page + 1) else none

/-- Pagination derivation of the getPullRequestComments handler (github.ts
lines 657-665, page size 20 for each of the two upstream calls). -/
def prCommentsPagination (issueCount reviewCount : Nat) (page : Int) : CommentsPagination where
  current_page := page
  total_comments := .num (issueCount + reviewCount)
  has_next_page := 20 ≤ issueCount || 20 ≤ reviewCount
  next_page := if 20 ≤ issueCount || 20 ≤ reviewCount then some (page + 1) else none

/-- Text payload resolved by a tool handler. -/
structure ToolText where
  text : String

/-- Handler of the listRepositories tool (github.ts lines 69-87): clean,
format, and convert any thrown error to an Error-prefixed text. -/
def listRepositoriesHandler (loc : JVal → String) (upstream : Except String JVal) : ToolText :=
  match upstream with
  | .error m => ⟨"Error: " ++ m⟩
  | .ok d => ⟨formatForHumans loc (cleanGitHubResponse d "repository") "repository"⟩

/-- Cleaned comment record built by the getIssueComments handler (fields
assigned unconditionally; undefined models absence). -/
structure IssueCommentView where
  id : JVal
  user : JVal
  created_at : JVal
  updated_at : JVal
  body : JVal
  html_url : JVal

/-- Per-comment cleaning of the getIssueComments handler:
comment.user?.login || 'unknown' with the other fields copied. -/
def commentView (c : JVal) : Except Unit IssueCommentView := do
  let i ← jsGet c "id"
  let uRaw ← jsGet c "user"
  let u := uRaw.getD .undef
  let l ← if isNullish u then pure none else jsGet u "login"
  let userVal := jsOr (l.getD .undef) (.str "unknown")
  let ca ← jsGet c "created_at"
  let ua ← jsGet c "updated_at"
  let b ← jsGet c "body"
  let hu ← jsGet c "html_url"
  pure ⟨i.getD .undef, userVal, ca.getD .undef, ua.getD .undef, b.getD .undef, hu.getD .undef⟩

/-- Rendering of new Date(v).toLocaleString() for a field stored as a JVal
(undefined yields Invalid Date). -/
def jsDateVal (loc : JVal → String) : JVal → String
  | .undef => "Invalid Date"
  | v => loc v

/-- Numbered comment blocks of the getIssueComments output. -/
def commentBlocks (loc : JVal → String) : Nat → List IssueCommentView → String
  | _, [] => ""
  | i, c :: rest =>
      "[" ++ toString i ++ "] " ++ jvalDisplay c.user ++ " 在 "
        ++ jsDateVal loc c.created_at ++ " 评论:\n"
        ++ jvalDisplay c.body ++ "\n\n"
        ++ commentBlocks loc (i + 1) rest

/-- Success-path output of the getIssueComments handler (github.ts lines
1020-1066): clean the comments, derive pagination, and build the issue
header, optional description, and comment listing with the next-page hint. -/
def issueCommentsBody (loc : JVal → String) (issueData : JVal) (comments : List JVal)
    (page : Int) : Except Unit String := do
  let views ← comments.mapM commentView
  let pag := issueCommentsPagination comments.length page
  let num ← jsGet issueData "number"
  let title ← jsGet issueData "title"
  let state ← jsGet issueData "state"
  let user ← jsGet issueData "user"
  let ca ← jsGet issueData "created_at"
  let hu ← jsGet issueData "html_url"
  let b ← jsGet issueData "body"
  let s1 := "Issue #" ++ dispOpt num ++ ": " ++ dispOpt title ++ "\n"
    ++ "状态: " ++ (if stateOpen state then "开放" else "关闭") ++ "\n"
    ++ "创建者: " ++ jvalDisplay (jsOr (user.getD .undef) (.str "unknown")) ++ "\n"
    ++ "创建于: " ++ jsDate loc ca ++ "\n"
    ++ "链接: " ++ dispOpt hu ++ "\n\n"
  let s2 := s1 ++ (match b with
    | some bv => if truthy bv then "描述:\n" ++ jvalDisplay bv ++ "\n\n" else ""
    | none => "")
  let s3 := s2 ++ "--- 评论 (第 " ++ toString page ++ " 页) ---\n\n"
  pure (s3 ++ (if views.length = 0 then "没有评论。\n"
    else commentBlocks loc 1 views
      ++ (if pag.has_next_page then
            "\n--- 还有更多评论。使用 page: "
              ++ (match pag.next_page with | some n => toString n | none => "null")
              ++ " 查看下一页 ---\n"
          else "")))

/-- Handler of the getIssueComments tool (github.ts lines 1000-1070): fetch
the issue, clean it, fetch the comments, build the output, and convert any
thrown error to an Error-prefixed text (em abstracts the message of an
internal TypeError). -/
def getIssueCommentsHandler (loc : JVal → String) (em : String)
    (issueRes : Except String JVal) (commentsRes : Except String (List JVal))
    (page : Int) : ToolText :=
  match issueRes with
  | .error m => ⟨"Error: " ++ m⟩
  | .ok raw =>
      match commentsRes with
      | .error m => ⟨"Error: " ++ m⟩
      | .ok comments =>
          match issueCommentsBody loc (cleanGitHubResponse raw "issue") comments page with
          | .ok text => ⟨text⟩
          | .error _ => ⟨"Error: " ++ em⟩

/-- Upstream error thrown by the octokit client: an optional HTTP status
code and a message. -/
structure UpstreamError where
  status : Option Int
  message : String

/-- Handler of the listRepositoryContents tool (github.ts lines 1371-1442;
identically in the earlier revision): the success-path rendering (directory
listing and file info, which uses the float-based formatFileSize helper) is
abstracted as the parameter render; the catch maps an upstream error with
status 404 to a friendly path-not-found text built from the requested path
(path || '/' under truthiness) and any other failure to an
错误-prefixed message. -/
def listRepositoryContentsHandler (render : JVal → String) (path : String)
    (upstream : Except UpstreamError JVal) : ToolText :=
  match upstream with
  | .ok d => ⟨render d⟩
  | .error e =>
      if e.status = some 404 then
        ⟨"路径不存在: " ++ (if path = "" then "/" else path)
          ++ "\n请检查路径是否正确，或尝试返回上级目录。"⟩
      else
        ⟨"错误: " ++ e.message⟩

/-!
Closed forms and support definitions used by the statements below.
-/

/-- Closed form of the copying loop of the generic step on an object. -/
def keptList (fs : List (String × JVal)) : List (String × JVal) :=
  keysToKeep.filterMap fun k => (lookupField fs k).map fun v => (k, truncVal k v)

/-- Closed form of the owner/user flattening on an object: a present object
value whose login is truthy flattens to that login. -/
def flatRefSpec (fs : List (String × JVal)) (key : String) : Option JVal :=
  match lookupField fs key with
  | some (.obj gs) =>
      match lookupField gs "login" with
      | some lv => if truthy lv then some lv else none
      | none => none
  | _ => none

/-- Per-element cleaning applied by the array branches of the cleaner
dispatch (the function passed to data.map for each handled kind). -/
def cleanElemV0 (t : String) (x : JVal) : Except Unit JVal :=
  match t with
  | "repository" => do pure (.obj (← cleanRepoOne x))
  | "pull_request" => do pure (.obj (← cleanPrOne x))
  | "issue" => do pure (.obj (← cleanIssueOne x))
  | "comment" => do pure (.obj (← cleanCommentOne x))
  | _ => do pure (.obj (← removeExcessiveFields x))

/-- Concrete locale renderer used to instantiate witnesses (any function may
stand for the environment's Date#toLocaleString). -/
def locConst : JVal → String := fun _ => "1/1/2024, 12:00:00 AM"

/-- String of n repetitions of a character (used to build concrete long
bodies in witnesses). -/
def repChar (n : Nat) (c : Char) : String := ⟨List.replicate n c⟩

/-!
Support lemmas about field lookup and the generic cleaning step.
-/

theorem lookupField_append (l₁ l₂ : List (String × JVal)) (k : String) :
    lookupField (l₁ ++ l₂) k = (lookupField l₁ k).or (lookupField l₂ k) := by
  induction l₁ with
  | nil => simp [lookupField]
  | cons p rest ih =>
      obtain ⟨k', v⟩ := p
      by_cases h : k' = k <;> simp [lookupField, h, ih]

theorem mem_optField {key k : String} {v : JVal} {w : Option JVal}
    (h : (k, v) ∈ optField key w) : k = key ∧ w = some v := by
  cases w with
  | none => simp [optField] at h
  | some u =>
      simp [optField] at h
      exact ⟨h.1, by rw [h.2]⟩

theorem lookup_optField_ne {key k : String} (w : Option JVal) (h : key ≠ k) :
    lookupField (optField key w) k = none := by
  cases w <;> simp [optField, lookupField, h]

theorem cleanKeys_obj (fs : List (String × JVal)) (ks : List String) :
    cleanKeys (.obj fs) ks
      = .ok (ks.filterMap fun k => (lookupField fs k).map fun v => (k, truncVal k v)) := by
  induction ks with
  | nil => rfl
  | cons k ks ih =>
      simp only [cleanKeys, jsGet, ih, List.filterMap_cons, bind, Except.bind]
      cases lookupField fs k <;> simp

theorem flattenRef_obj (fs : List (String × JVal)) (key : String) :
    flattenRef (.obj fs) key = .ok (flatRefSpec fs key) := by
  simp only [flattenRef, flatRefSpec, jsGet, bind, Except.bind]
  cases h : lookupField fs key with
  | none => rfl
  | some w =>
      cases w with
      | obj gs =>
          cases hl : lookupField gs "login" <;>
            simp [hl, truthy, isObjectType, jsGet, pure, Except.pure]
      | undef => rfl
      | null => rfl
      | bool b => cases b <;> rfl
      | num n => simp [truthy, isObjectType, pure, Except.pure]
      | str s => simp [truthy, isObjectType, pure, Except.pure]
      | arr xs => simp [truthy, isObjectType, jsGet, pure, Except.pure]

theorem removeExcessiveFields_obj (fs : List (String × JVal)) :
    removeExcessiveFields (.obj fs)
      = .ok (keptList fs ++ optField "owner" (flatRefSpec fs "owner")
          ++ optField "user" (flatRefSpec fs "user")) := by
  simp only [removeExcessiveFields, cleanKeys_obj, flattenRef_obj, keptList,
    bind, Except.bind, pure, Except.pure]

theorem lookup_filterMap_notMem (fs : List (String × JVal)) (ks : List String) (k : String)
    (hk : k ∉ ks) :
    lookupField (ks.filterMap fun k' => (lookupField fs k').map fun v => (k', truncVal k' v)) k
      = none := by
  induction ks with
  | nil => rfl
  | cons a ks ih =>
      have hak : a ≠ k := fun he => hk (he ▸ List.mem_cons_self a ks)
      have hk' : k ∉ ks := fun hm => hk (List.mem_cons_of_mem a hm)
      cases h : lookupField fs a with
      | none => simpa [List.filterMap_cons, h] using ih hk'
      | some v =>
          simp only [List.filterMap_cons, h, Option.map_some', lookupField, if_neg hak]
          exact ih hk'

theorem lookup_filterMap_keys (fs : List (String × JVal)) (ks : List String) (k : String)
    (hnd : ks.Nodup) (hk : k ∈ ks) :
    lookupField (ks.filterMap fun k' => (lookupField fs k').map fun v => (k', truncVal k' v)) k
      = (lookupField fs k).map (truncVal k) := by
  induction ks with
  | nil => cases hk
  | cons a ks ih =>
      rcases List.nodup_cons.mp hnd with ⟨hna, hnd'⟩
      rcases List.mem_cons.mp hk with rfl | hmem
      · cases h : lookupField fs k with
        | none =>
            simp only [List.filterMap_cons, h, Option.map_none']
            rw [lookup_filterMap_notMem fs ks k hna]
        | some v =>
            simp [List.filterMap_cons, h, lookupField]
      · have hak : a ≠ k := fun he => hna (he ▸ hmem)
        cases h : lookupField fs a with
        | none => simpa [List.filterMap_cons, h] using ih hnd' hmem
        | some v =>
            simp only [List.filterMap_cons, h, Option.map_some', lookupField,
              if_neg hak]
            exact ih hnd' hmem

theorem mem_filterMap_keys {fs : List (String × JVal)} {ks : List String} {k : String}
    {v : JVal}
    (h : (k, v) ∈ ks.filterMap fun k' => (lookupField fs k').map fun w => (k', truncVal k' w)) :
    k ∈ ks ∧ ∃ w, lookupField fs k = some w ∧ v = truncVal k w := by
  rcases List.mem_filterMap.mp h with ⟨a, ha, he⟩
  cases hw : lookupField fs a with
  | none => rw [hw] at he; cases he
  | some w =>
      rw [hw] at he
      simp only [Option.map_some', Option.some.injEq, Prod.mk.injEq] at he
      obtain ⟨rfl, rfl⟩ := he
      exact ⟨ha, w, hw, rfl⟩

theorem lookup_keptList (fs : List (String × JVal)) (k : String) (hk : k ∈ keysToKeep) :
    lookupField (keptList fs) k = (lookupField fs k).map (truncVal k) :=
  lookup_filterMap_keys fs keysToKeep k (by decide) hk

/-- C1: the claim lists a 27-name generic allow-list, but the fixed key set
keysToKeep in the source has only 17 names and includes none of protected,
protection, commit, tag_name, target_commitish, prerelease, draft,
assets_url, upload_url, published_at: an object carrying only tag_name is
cleaned to the empty record instead of retaining the field. -/
theorem c1_counterexample :
    cleanGitHubResponse (.obj [("tag_name", .str "v1.0")]) "release" = .obj [] := rfl

/-- C1 amended: the generic allow-list step retains exactly the fields of
the 17-name set keysToKeep (id, name, login, full_name, html_url,
description, private, created_at, updated_at, pushed_at, language,
default_branch, number, title, state, body, sha) that are present on the
source object (with body/description truncation), omits absent fields, and
produces no field outside that set except the flattened owner and user. -/
theorem c1_allowlist_amended (fs out : List (String × JVal))
    (h : removeExcessiveFields (.obj fs) = .ok out) :
    (∀ k, k ∈ keysToKeep → lookupField out k = (lookupField fs k).map (truncVal k))
    ∧ (∀ k v, (k, v) ∈ out → k ∈ keysToKeep ∨ k = "owner" ∨ k = "user") := by
  rw [removeExcessiveFields_obj] at h
  obtain rfl := (Except.ok.inj h).symm
  constructor
  · intro k hk
    have hko : "owner" ≠ k := fun he => (by decide : "owner" ∉ keysToKeep) (he ▸ hk)
    have hku : "user" ≠ k := fun he => (by decide : "user" ∉ keysToKeep) (he ▸ hk)
    rw [lookupField_append, lookupField_append, lookup_optField_ne _ hko,
      lookup_optField_ne _ hku, lookup_keptList fs k hk]
    simp
  · intro k v hm
    rcases List.mem_append.mp hm with hm' | hu
    · rcases List.mem_append.mp hm' with hk | ho
      · simp only [keptList] at hk
        exact Or.inl (mem_filterMap_keys hk).1
      · exact Or.inr (Or.inl (mem_optField ho).1)
    · exact Or.inr (Or.inr (mem_optField hu).1)

/-- Witness for C1 amended at a concrete one-field object. -/
theorem c1_allowlist_amended_witness :
    lookupField [("id", JVal.num 1)] "id"
      = (lookupField [("id", JVal.num 1)] "id").map (truncVal "id") :=
  (c1_allowlist_amended [("id", JVal.num 1)] [("id", JVal.num 1)] rfl).1 "id" (by decide)

/-- C5: whenever an exception occurs inside the cleaning body (modelled by
the .error result of the try-block body), the catch of cleanGitHubResponse
returns the original unmodified input, in both revisions of the source. -/
theorem c5_clean_catch_returns_input (loc : JVal → String) (d : JVal) (t : String) :
    (cleanInnerTS d t = .error () → cleanGitHubResponse d t = d)
    ∧ (cleanInnerV0 loc d t = .error () → cleanGitHubResponseV0 loc d t = d) := by
  constructor <;> intro h <;> simp [cleanGitHubResponse, cleanGitHubResponseV0, h]

/-- Witness for C5: cleaning null data of kind repository throws (property
access on null) and the cleaner returns the original null input. -/
theorem c5_clean_catch_returns_input_witness :
    cleanInnerTS .null "repository" = .error ()
    ∧ cleanGitHubResponse .null "repository" = .null :=
  ⟨rfl, (c5_clean_catch_returns_input locConst .null "repository").1 rfl⟩

/-- C6: formatForHumans on an empty array returns the kind-specific,
nonempty none-found sentence for each of the four kinds (and cannot throw
there: the branch returns before any fallible step). -/
theorem c6_empty_array_messages (loc : JVal → String) :
    formatForHumans loc (.arr []) "repository" = "未找到任何仓库。"
    ∧ formatForHumans loc (.arr []) "pull_request" = "未找到任何拉取请求。"
    ∧ formatForHumans loc (.arr []) "issue" = "未找到任何议题。"
    ∧ formatForHumans loc (.arr []) "user" = "未找到任何用户。"
    ∧ "未找到任何仓库。" ≠ "" ∧ "未找到任何拉取请求。" ≠ ""
    ∧ "未找到任何议题。" ≠ "" ∧ "未找到任何用户。" ≠ "" :=
  ⟨rfl, rfl, rfl, rfl, by decide, by decide, by decide, by decide⟩

/-- Witness for C6 at a concrete locale renderer. -/
theorem c6_empty_array_messages_witness :
    formatForHumans locConst (.arr []) "issue" = "未找到任何议题。" :=
  (c6_empty_array_messages locConst).2.2.1

/-- C8: the derived pagination has has_next_page true when an upstream page
of the requested size (30 for getIssueComments, 20 for each of the two
getPullRequestComments calls) comes back full, and false when every
upstream call returns fewer items. -/
theorem c8_pagination_heuristic (n ic rc : Nat) (page : Int) :
    (n = 30 → (issueCommentsPagination n page).has_next_page = true)
    ∧ (n < 30 → (issueCommentsPagination n page).has_next_page = false)
    ∧ (ic = 20 ∨ rc = 20 → (prCommentsPagination ic rc page).has_next_page = true)
    ∧ (ic < 20 → rc < 20 → (prCommentsPagination ic rc page).has_next_page = false) := by
  refine ⟨fun h => ?_, fun h => ?_, fun h => ?_, fun h h' => ?_⟩
  · subst h; rfl
  · simp [issueCommentsPagination]; omega
  · rcases h with rfl | rfl <;> simp [prCommentsPagination]
  · simp [prCommentsPagination]; omega

/-- Witness for C8 at concrete counts. -/
theorem c8_pagination_heuristic_witness :
    (issueCommentsPagination 30 1).has_next_page = true
    ∧ (issueCommentsPagination 29 1).has_next_page = false
    ∧ (prCommentsPagination 20 0 1).has_next_page = true
    ∧ (prCommentsPagination 19 19 1).has_next_page = false :=
  ⟨(c8_pagination_heuristic 30 0 0 1).1 rfl,
   (c8_pagination_heuristic 29 0 0 1).2.1 (by decide),
   (c8_pagination_heuristic 0 20 0 1).2.2.1 (Or.inl rfl),
   (c8_pagination_heuristic 0 19 19 1).2.2.2 (by decide) (by decide)⟩

/-- C9: the claim fails as stated: the listRepositoryContents handler
(github.ts lines 1429-1440) resolves an upstream 404 with a path-not-found
text and every other upstream failure with an 错误-prefixed text, neither of
which has the form Error: message. -/
theorem c9_counterexample :
    listRepositoryContentsHandler (fun _ => "") "src" (.error ⟨some 404, "Not Found"⟩)
      = ⟨"路径不存在: src\n请检查路径是否正确，或尝试返回上级目录。"⟩
    ∧ ¬ ("Error: ".data <+: "路径不存在: src\n请检查路径是否正确，或尝试返回上级目录。".data)
    ∧ listRepositoryContentsHandler (fun _ => "") "src" (.error ⟨none, "boom"⟩)
      = ⟨"错误: boom"⟩
    ∧ ¬ ("Error: ".data <+: "错误: boom".data) :=
  ⟨rfl, by decide, rfl, by decide⟩

/-- C9 amended: every handler catches upstream failures and resolves with a
text payload, so no exception or rejected promise reaches the dispatcher
(the handler functions here are total); the cited listRepositories and
getIssueComments handlers, like 33 of the catch blocks in github.ts, convert
any upstream failure (including failure of the second sequential upstream
call) to the text Error: message — but the listRepositoryContents handler
deviates, mapping a 404 status to a friendly path-not-found text built from
the requested path and any other failure to 错误: message. -/
theorem c9_error_text_amended (loc : JVal → String) (em m : String)
    (d : JVal) (cr : Except String (List JVal)) (page : Int)
    (render : JVal → String) (path : String) (e : UpstreamError) :
    listRepositoriesHandler loc (.error m) = ⟨"Error: " ++ m⟩
    ∧ getIssueCommentsHandler loc em (.error m) cr page = ⟨"Error: " ++ m⟩
    ∧ getIssueCommentsHandler loc em (.ok d) (.error m) page = ⟨"Error: " ++ m⟩
    ∧ (e.status = some 404 →
        listRepositoryContentsHandler render path (.error e)
          = ⟨"路径不存在: " ++ (if path = "" then "/" else path)
              ++ "\n请检查路径是否正确，或尝试返回上级目录。"⟩)
    ∧ (e.status ≠ some 404 →
        listRepositoryContentsHandler render path (.error e)
          = ⟨"错误: " ++ e.message⟩) := by
  refine ⟨rfl, rfl, rfl, fun h => ?_, fun h => ?_⟩
  · simp [listRepositoryContentsHandler, h]
  · simp [listRepositoryContentsHandler, h]

/-- Witness for C9 amended at concrete upstream failures. -/
theorem c9_error_text_amended_witness :
    listRepositoriesHandler locConst (.error "Not Found") = ⟨"Error: " ++ "Not Found"⟩
    ∧ listRepositoryContentsHandler locConst "" (.error ⟨some 404, "nf"⟩)
      = ⟨"路径不存在: " ++ (if ("" : String) = "" then "/" else "")
          ++ "\n请检查路径是否正确，或尝试返回上级目录。"⟩
    ∧ listRepositoryContentsHandler locConst "docs" (.error ⟨some 500, "boom"⟩)
      = ⟨"错误: " ++ "boom"⟩ :=
  ⟨(c9_error_text_amended locConst "x" "Not Found" .null (.ok []) 1 locConst ""
      ⟨some 404, "nf"⟩).1,
   (c9_error_text_amended locConst "x" "m" .null (.ok []) 1 locConst ""
      ⟨some 404, "nf"⟩).2.2.2.1 rfl,
   (c9_error_text_amended locConst "x" "m" .null (.ok []) 1 locConst "docs"
      ⟨some 500, "boom"⟩).2.2.2.2 (by decide)⟩

theorem except_bind_pure_shape {α β : Type} (m : Except Unit α) (g : α → β) :
    (do let ys ← m; pure (g ys) : Except Unit β) = m.map g := by
  cases m <;> rfl

theorem mapM_ok_forall₂ {α β : Type} (f : α → Except Unit β) (xs : List α) (ys : List β)
    (h : xs.mapM f = .ok ys) : List.Forall₂ (fun x y => f x = .ok y) xs ys := by
  induction xs generalizing ys with
  | nil =>
      rw [List.mapM_nil] at h
      obtain rfl := (Except.ok.inj h).symm
      exact List.Forall₂.nil
  | cons x xs ih =>
      rw [List.mapM_cons] at h
      cases hx : f x with
      | error e => rw [hx] at h; exact Except.noConfusion (by simpa using h)
      | ok y =>
          rw [hx] at h
          cases hm : xs.mapM f with
          | error e => rw [hm] at h; exact Except.noConfusion (by simpa using h)
          | ok ys' =>
              rw [hm] at h
              simp only [bind, Except.bind, pure, Except.pure] at h
              obtain rfl := (Except.ok.inj h).symm
              exact List.Forall₂.cons hx (ih ys' hm)

theorem cleanInnerV0_arr (loc : JVal → String) (t : String) (xs : List JVal)
    (hu : t ≠ "user") (hc : t ≠ "comments") :
    cleanInnerV0 loc (.arr xs) t = (xs.mapM (cleanElemV0 t)).map JVal.arr := by
  by_cases h1 : t = "repository"
  · subst h1; exact except_bind_pure_shape _ _
  by_cases h2 : t = "pull_request"
  · subst h2; exact except_bind_pure_shape _ _
  by_cases h3 : t = "issue"
  · subst h3; exact except_bind_pure_shape _ _
  by_cases h4 : t = "comment"
  · subst h4; exact except_bind_pure_shape _ _
  · have he : cleanElemV0 t
        = fun x => removeExcessiveFields x >>= fun gs => pure (JVal.obj gs) := by
      funext x
      simp [cleanElemV0, h1, h2, h3, h4]
    simp only [cleanInnerV0, cleanInnerTS, h1, h2, h3, h4, hu, hc, he]
    exact except_bind_pure_shape _ _

theorem cleanInnerV0_obj (loc : JVal → String) (t : String) (fs : List (String × JVal))
    (hu : t ≠ "user") (hc : t ≠ "comments") :
    cleanInnerV0 loc (.obj fs) t = cleanElemV0 t (.obj fs) := by
  by_cases h1 : t = "repository"
  · subst h1; rfl
  by_cases h2 : t = "pull_request"
  · subst h2; rfl
  by_cases h3 : t = "issue"
  · subst h3; rfl
  by_cases h4 : t = "comment"
  · subst h4; rfl
  · simp only [cleanInnerV0, cleanInnerTS, cleanElemV0, h1, h2, h3, h4, hu, hc]

theorem bind_obj_shape (m : Except Unit (List (String × JVal))) (v : JVal)
    (h : (do pure (JVal.obj (← m)) : Except Unit JVal) = .ok v) :
    ∃ gs, v = .obj gs := by
  cases m with
  | error e => simp [bind, Except.bind, pure, Except.pure] at h
  | ok gs =>
      simp only [bind, Except.bind, pure, Except.pure, Except.ok.injEq] at h
      exact ⟨gs, h.symm⟩

theorem cleanElemV0_shape (t : String) (x v : JVal) (h : cleanElemV0 t x = .ok v) :
    ∃ gs, v = .obj gs := by
  unfold cleanElemV0 at h
  split at h <;> exact bind_obj_shape _ _ h

/-- C2: in the earlier revision (src/unnamed/part_000) the cleaner's 'user'
case returns a formatted string, not a record: cleaning the empty user array
yields the none-found sentence instead of an empty array. -/
theorem c2_counterexample :
    cleanGitHubResponseV0 locConst (.arr []) "user" = .str "未找到任何用户。"
    ∧ JVal.str "未找到任何用户。" ≠ JVal.arr [] :=
  ⟨rfl, fun h => JVal.noConfusion h⟩

/-- C2 amended: for every kind other than 'user' and 'comments' (whose cases
in the earlier revision return formatted strings), cleaning an array yields
an array of the same length, element-wise in order (on the success path each
output element is the per-element cleaning of the corresponding input
element; on the exception path the original array is returned unchanged),
and cleaning an object yields a single cleaned record.  In the current
github.ts, which lacks those two cases, this holds for every kind. -/
theorem c2_shape_amended (loc : JVal → String) (t : String)
    (hu : t ≠ "user") (hc : t ≠ "comments") :
    (∀ xs, ∃ ys, cleanGitHubResponseV0 loc (.arr xs) t = .arr ys ∧ ys.length = xs.length)
    ∧ (∀ xs ys, cleanInnerV0 loc (.arr xs) t = .ok (.arr ys) →
        List.Forall₂ (fun x y => cleanElemV0 t x = .ok y) xs ys)
    ∧ (∀ fs, ∃ gs, cleanGitHubResponseV0 loc (.obj fs) t = .obj gs) := by
  refine ⟨fun xs => ?_, fun xs ys h => ?_, fun fs => ?_⟩
  · cases hm : xs.mapM (cleanElemV0 t) with
    | error e =>
        refine ⟨xs, ?_, rfl⟩
        unfold cleanGitHubResponseV0
        rw [cleanInnerV0_arr loc t xs hu hc, hm]
        rfl
    | ok ys =>
        refine ⟨ys, ?_, (mapM_ok_forall₂ _ _ _ hm).length_eq.symm⟩
        unfold cleanGitHubResponseV0
        rw [cleanInnerV0_arr loc t xs hu hc, hm]
        rfl
  · rw [cleanInnerV0_arr loc t xs hu hc] at h
    cases hm : xs.mapM (cleanElemV0 t) with
    | error e => rw [hm] at h; simp [Except.map] at h
    | ok ys' =>
        rw [hm] at h
        simp only [Except.map] at h
        obtain rfl : ys' = ys := JVal.arr.inj (Except.ok.inj h)
        exact mapM_ok_forall₂ _ _ _ hm
  · cases he : cleanElemV0 t (.obj fs) with
    | error e =>
        refine ⟨fs, ?_⟩
        unfold cleanGitHubResponseV0
        rw [cleanInnerV0_obj loc t fs hu hc, he]
    | ok v =>
        obtain ⟨gs, rfl⟩ := cleanElemV0_shape t _ v he
        refine ⟨gs, ?_⟩
        unfold cleanGitHubResponseV0
        rw [cleanInnerV0_obj loc t fs hu hc, he]

/-- Witness for C2 amended at kind repository and a singleton array. -/
theorem c2_shape_amended_witness :
    ∃ ys, cleanGitHubResponseV0 locConst (.arr [JVal.obj [("id", JVal.num 1)]]) "repository"
        = .arr ys
      ∧ ys.length = [JVal.obj [("id", JVal.num 1)]].length :=
  (c2_shape_amended locConst "repository" (by decide) (by decide)).1
    [JVal.obj [("id", JVal.num 1)]]

theorem lookup_removeExcessive_kept (fs out : List (String × JVal))
    (h : removeExcessiveFields (.obj fs) = .ok out) (k : String) (hk : k ∈ keysToKeep) :
    lookupField out k = (lookupField fs k).map (truncVal k) := by
  rw [removeExcessiveFields_obj] at h
  obtain rfl := (Except.ok.inj h).symm
  have hko : "owner" ≠ k := fun he => (by decide : "owner" ∉ keysToKeep) (he ▸ hk)
  have hku : "user" ≠ k := fun he => (by decide : "user" ∉ keysToKeep) (he ▸ hk)
  rw [lookupField_append, lookupField_append, lookup_optField_ne _ hko,
    lookup_optField_ne _ hku, lookup_keptList fs k hk]
  simp

theorem refOf_ok (u : Option JVal) (key : String) : ∃ r, refOf u key = .ok r := by
  cases u with
  | none => exact ⟨none, rfl⟩
  | some w =>
      cases w with
      | undef => exact ⟨none, rfl⟩
      | null => exact ⟨none, rfl⟩
      | bool b => cases b with
          | false => exact ⟨none, rfl⟩
          | true => exact ⟨none, rfl⟩
      | num n =>
          simp only [refOf]
          split
          · exact ⟨none, rfl⟩
          · exact ⟨none, rfl⟩
      | str s =>
          simp only [refOf]
          split
          · exact ⟨none, rfl⟩
          · exact ⟨none, rfl⟩
      | arr xs => exact ⟨none, rfl⟩
      | obj gs =>
          cases hl : lookupField gs key with
          | none =>
              exact ⟨none, by simp [refOf, truthy, jsGet, hl, bind, Except.bind,
                pure, Except.pure]⟩
          | some rv =>
              exact ⟨if truthy rv then some rv else none,
                by simp [refOf, truthy, jsGet, hl, bind, Except.bind, pure, Except.pure]⟩

/-- C3: in the dedicated comment kind the body field is kept only when
truthy: an empty-string body (length 0, hence within every threshold) is
omitted from the cleaned output instead of passing through unchanged. -/
theorem c3_counterexample :
    cleanGitHubResponseV0 locConst (.obj [("body", .str "")]) "comment" = .obj []
    ∧ lookupField [] "body" = none :=
  ⟨rfl, rfl⟩

/-- C3 amended: in the generic step a string body/description longer than
300 characters becomes its first 300 characters plus the ellipsis marker and
shorter values pass through unchanged; in the dedicated comment kind the
same holds for truthy (nonempty) string bodies with the 1000-character
threshold, while an empty body string is omitted. -/
theorem c3_truncation_amended (fs out : List (String × JVal)) (s : String) (k : String) :
    (removeExcessiveFields (.obj fs) = .ok out → (k = "body" ∨ k = "description") →
      lookupField fs k = some (.str s) →
      lookupField out k
        = some (.str (if 300 < s.length then jsSubstring s 300 ++ "..." else s)))
    ∧ (cleanCommentOne (.obj fs) = .ok out → lookupField fs "body" = some (.str s) →
      s ≠ "" →
      lookupField out "body"
        = some (.str (if 1000 < s.length then jsSubstring s 1000 ++ "..." else s))) := by
  constructor
  · intro h hbd hbval
    have hk : k ∈ keysToKeep := by rcases hbd with rfl | rfl <;> decide
    rw [lookup_removeExcessive_kept fs out h k hk, hbval]
    rcases hbd with rfl | rfl <;>
      by_cases hl : 300 < s.length <;> simp [truncVal, hl]
  · intro h hbval hs
    have hst : (s != "") = true := by simpa using hs
    obtain ⟨r, hr⟩ := refOf_ok (lookupField fs "user") "login"
    have hcc : cleanCommentOne (.obj fs)
        = .ok (optField "id" (lookupField fs "id")
            ++ optField "created_at" (lookupField fs "created_at")
            ++ optField "updated_at" (lookupField fs "updated_at")
            ++ optField "html_url" (lookupField fs "html_url")
            ++ [("body", if 1000 < s.length then .str (jsSubstring s 1000 ++ "...") else .str s)]
            ++ optField "user" r) := by
      unfold cleanCommentOne
      simp only [jsGet, hbval, hr, bind, Except.bind, pure, Except.pure, truthy, hst,
        commentBodyFields, commentBody, if_true]
    rw [hcc] at h
    obtain rfl := (Except.ok.inj h).symm
    rw [lookupField_append, lookupField_append, lookupField_append, lookupField_append,
      lookupField_append,
      lookup_optField_ne (lookupField fs "id") (by decide : "id" ≠ "body"),
      lookup_optField_ne (lookupField fs "created_at") (by decide : "created_at" ≠ "body"),
      lookup_optField_ne (lookupField fs "updated_at") (by decide : "updated_at" ≠ "body"),
      lookup_optField_ne (lookupField fs "html_url") (by decide : "html_url" ≠ "body")]
    by_cases hl : 1000 < s.length <;> simp [lookupField, Option.or, hl]

set_option maxRecDepth 8192 in
/-- Witness for C3 amended at a 301-character body cleaned by the generic
step. -/
theorem c3_truncation_amended_witness :
    lookupField [("body", JVal.str (jsSubstring (repChar 301 'a') 300 ++ "..."))] "body"
      = some (.str (if 300 < (repChar 301 'a').length
          then jsSubstring (repChar 301 'a') 300 ++ "..." else repChar 301 'a')) :=
  (c3_truncation_amended [("body", JVal.str (repChar 301 'a'))]
      [("body", JVal.str (jsSubstring (repChar 301 'a') 300 ++ "..."))]
      (repChar 301 'a') "body").1 rfl (Or.inl rfl) rfl

theorem not_prefix_append_of_mismatch (l₁ l₂ r : List Char) (i : Nat)
    (hi₁ : i < l₁.length) (hi₂ : i < l₂.length)
    (hne : l₁.get ⟨i, hi₁⟩ ≠ l₂.get ⟨i, hi₂⟩) :
    ¬ (l₁ <+: l₂ ++ r) := by
  intro hp
  have hg := hp.getElem hi₁
  rw [List.getElem_append_left hi₂] at hg
  refine hne ?_
  simp only [List.get_eq_getElem]
  exact hg

theorem stringJoin_aux (l : List String) (s : String) :
    l.foldl (· ++ ·) s = s ++ String.join l := by
  induction l generalizing s with
  | nil => simp [String.join]
  | cons a l ih =>
      show (l.foldl (· ++ ·) (s ++ a)) = _
      rw [ih, String.join]
      show s ++ a ++ String.join l = s ++ l.foldl (· ++ ·) ("" ++ a)
      rw [ih ("" ++ a)]
      simp [String.append_assoc]

theorem stringJoin_append (l₁ l₂ : List String) :
    String.join (l₁ ++ l₂) = String.join l₁ ++ String.join l₂ := by
  rw [String.join, List.foldl_append]
  rw [stringJoin_aux l₂ (List.foldl (· ++ ·) "" l₁)]
  rfl

theorem repoSingleSegs_obj (loc : JVal → String) (fs : List (String × JVal))
    (segs : List String) (h : repoSingleSegs loc (.obj fs) = .ok segs) :
    ∃ ts, topicsSegs "主题标签: " (lookupField fs "topics") = .ok ts ∧
      segs = ["仓库: " ++ jvalDisplay (jsOr ((lookupField fs "full_name").getD .undef)
            ((lookupField fs "name").getD .undef)) ++ "\n"]
        ++ condSeg "描述: " (lookupField fs "description")
        ++ ["链接: " ++ dispOpt (lookupField fs "html_url") ++ "\n"]
        ++ condSeg "主要语言: " (lookupField fs "language")
        ++ condSeg "星标数: " (lookupField fs "stars")
        ++ ts
        ++ ["更新于: " ++ jsDate loc (lookupField fs "updated_at") ++ "\n"] := by
  unfold repoSingleSegs at h
  cases hts : topicsSegs "主题标签: " (lookupField fs "topics") with
  | error e => simp [jsGet, bind, Except.bind, hts] at h
  | ok ts =>
      refine ⟨ts, rfl, ?_⟩
      simp only [jsGet, bind, Except.bind, pure, Except.pure, hts] at h
      exact (Except.ok.inj h).symm

/-- C7: on a repository record with no updated_at value the formatter prints
the JavaScript rendering Invalid Date on the timestamp line rather than an
unknown-time placeholder (and the output contains no such placeholder). -/
theorem c7_counterexample :
    formatForHumans locConst (.obj [("full_name", .str "a/b"), ("html_url", .str "u")])
        "repository"
      = "仓库: a/b\n链接: u\n更新于: Invalid Date\n"
    ∧ ¬ ("unknown time".data <:+: "仓库: a/b\n链接: u\n更新于: Invalid Date\n".data) :=
  ⟨rfl, by decide⟩

/-- C7 amended: date fields are rendered through Date#toLocaleString (the
locale parameter loc); when the unconditionally rendered repository
updated_at is missing, the formatter does not throw and the output ends with
the literal timestamp line 更新于: Invalid Date, not an unknown-time
placeholder (conditionally rendered date lines such as created_at in
pull_request blocks are simply omitted when missing). -/
theorem c7_date_amended (loc : JVal → String) (fs : List (String × JVal)) (out : String)
    (h : formatInner loc (.obj fs) "repository" = .ok out)
    (hu : lookupField fs "updated_at" = none) :
    formatForHumans loc (.obj fs) "repository" = out
    ∧ ∃ p, out = p ++ ("更新于: " ++ "Invalid Date" ++ "\n") := by
  constructor
  · simp [formatForHumans, h]
  · have hfi : ∃ segs, repoSingleSegs loc (.obj fs) = .ok segs ∧ out = String.join segs := by
      cases hr : repoSingleSegs loc (.obj fs) with
      | error e =>
          exfalso
          simp only [formatInner, hr, bind, Except.bind] at h
          exact Except.noConfusion h
      | ok segs =>
          refine ⟨segs, rfl, ?_⟩
          simp only [formatInner, hr, bind, Except.bind, pure, Except.pure] at h
          exact (Except.ok.inj h).symm
    obtain ⟨segs, hr, rfl⟩ := hfi
    obtain ⟨ts, hts, rfl⟩ := repoSingleSegs_obj loc fs segs hr
    rw [hu, stringJoin_append]
    exact ⟨_, rfl⟩

/-- Witness for C7 amended at a concrete repository record lacking
updated_at. -/
theorem c7_date_amended_witness :
    formatForHumans locConst (.obj [("full_name", .str "s/t")]) "repository"
        = "仓库: s/t\n链接: undefined\n更新于: Invalid Date\n"
    ∧ ∃ p, "仓库: s/t\n链接: undefined\n更新于: Invalid Date\n"
        = p ++ ("更新于: " ++ "Invalid Date" ++ "\n") :=
  c7_date_amended locConst [("full_name", .str "s/t")]
    "仓库: s/t\n链接: undefined\n更新于: Invalid Date\n" rfl rfl

theorem mem_condSeg {label : String} {v : Option JVal} {s : String}
    (h : s ∈ condSeg label v) :
    ∃ w, v = some w ∧ truthy w = true ∧ s = label ++ jvalDisplay w ++ "\n" := by
  cases v with
  | none => simp [condSeg] at h
  | some w =>
      by_cases ht : truthy w = true
      · exact ⟨w, rfl, ht, by simpa [condSeg, ht] using h⟩
      · simp [condSeg, ht] at h

theorem condSeg_mem_self {label : String} {w : JVal} (ht : truthy w = true) :
    (label ++ jvalDisplay w ++ "\n") ∈ condSeg label (some w) := by
  simp [condSeg, ht]

theorem mem_topicsSegs {label : String} {tv : Option JVal} {ts : List String} {s : String}
    (h : topicsSegs label tv = .ok ts) (hs : s ∈ ts) :
    ∃ w, tv = some w ∧ truthy w = true ∧ ∃ rest, s = label ++ rest := by
  cases tv with
  | none =>
      obtain rfl := (Except.ok.inj h).symm
      simp at hs
  | some w =>
      cases w with
      | undef =>
          obtain rfl := (Except.ok.inj h).symm
          simp at hs
      | null =>
          obtain rfl := (Except.ok.inj h).symm
          simp at hs
      | bool b =>
          have hred : topicsSegs label (some (.bool b))
              = if b = true then .ok [] else .ok [] := rfl
          rw [hred] at h
          split at h <;> (obtain rfl := (Except.ok.inj h).symm; simp at hs)
      | num n =>
          have hred : topicsSegs label (some (.num n))
              = if (n != 0) = true then .ok [] else .ok [] := rfl
          rw [hred] at h
          split at h <;> (obtain rfl := (Except.ok.inj h).symm; simp at hs)
      | str u =>
          have hred : topicsSegs label (some (.str u))
              = if (u != "") = true
                then (if 0 < u.length then .error () else .ok [])
                else .ok [] := rfl
          rw [hred] at h
          split at h
          · split at h
            · exact absurd h (by simp)
            · obtain rfl := (Except.ok.inj h).symm
              simp at hs
          · obtain rfl := (Except.ok.inj h).symm
            simp at hs
      | arr xs =>
          have hred : topicsSegs label (some (.arr xs))
              = .ok (if 0 < xs.length then [label ++ jsJoin xs ", " ++ "\n"] else []) := rfl
          rw [hred] at h
          obtain rfl := (Except.ok.inj h).symm
          by_cases hx : 0 < xs.length
          · rw [if_pos hx] at hs
            simp only [List.mem_singleton] at hs
            exact ⟨.arr xs, rfl, rfl, jsJoin xs ", " ++ "\n", by rw [hs, String.append_assoc]⟩
          · rw [if_neg hx] at hs
            simp at hs
      | obj gs =>
          have hred : topicsSegs label (some (.obj gs))
              = match lookupField gs "length" with
                | some (.num n) => if 0 < n then .error () else .ok []
                | _ => .ok [] := rfl
          rw [hred] at h
          cases hL : lookupField gs "length" with
          | none =>
              rw [hL] at h
              obtain rfl := (Except.ok.inj h).symm
              simp at hs
          | some v =>
              rw [hL] at h
              cases v with
              | num n =>
                  split at h
                  · split at h
                    · exact absurd h (by simp)
                    · obtain rfl := (Except.ok.inj h).symm
                      simp at hs
                  · rename_i hfalse
                    exact absurd rfl (hfalse n)
              | undef =>
                  obtain rfl := (Except.ok.inj h).symm
                  simp at hs
              | null =>
                  obtain rfl := (Except.ok.inj h).symm
                  simp at hs
              | bool b =>
                  obtain rfl := (Except.ok.inj h).symm
                  simp at hs
              | str u =>
                  obtain rfl := (Except.ok.inj h).symm
                  simp at hs
              | arr ys =>
                  obtain rfl := (Except.ok.inj h).symm
                  simp at hs
              | obj hs2 =>
                  obtain rfl := (Except.ok.inj h).symm
                  simp at hs

theorem seg_label_mismatch {X label : String} (m tail : String) (i : Nat)
    (hiX : i < X.data.length) (hiL : i < label.data.length)
    (hne : X.data.get ⟨i, hiX⟩ ≠ label.data.get ⟨i, hiL⟩) :
    ¬ (X.data <+: (label ++ m ++ tail).data) := by
  rw [String.data_append, String.data_append, List.append_assoc]
  exact not_prefix_append_of_mismatch _ _ _ i hiX hiL hne

theorem seg_label_mismatch₂ {X label : String} (rest : String) (i : Nat)
    (hiX : i < X.data.length) (hiL : i < label.data.length)
    (hne : X.data.get ⟨i, hiX⟩ ≠ label.data.get ⟨i, hiL⟩) :
    ¬ (X.data <+: (label ++ rest).data) := by
  rw [String.data_append]
  exact not_prefix_append_of_mismatch _ _ _ i hiX hiL hne

theorem seg_label_starts (label m tail : String) :
    label.data <+: (label ++ m ++ tail).data := by
  rw [String.data_append, String.data_append, List.append_assoc]
  exact List.prefix_append _ _

/-- C10: in the single-repository block the star-count line (prefix 星标数:)
appears iff the stars field is present and truthy (so stars = 0 omits it);
lines for description, language and topics appear only when the respective
field is present and truthy; and no line for clone_url exists at all (the
repository formatter never prints one, so it is omitted for every value). -/
theorem c10_repo_conditional_lines (loc : JVal → String) (fs : List (String × JVal))
    (segs : List String) (h : repoSingleSegs loc (.obj fs) = .ok segs) :
    ((∃ s ∈ segs, "星标数: ".data <+: s.data)
        ↔ ∃ v, lookupField fs "stars" = some v ∧ truthy v = true)
    ∧ ((∃ s ∈ segs, "描述: ".data <+: s.data)
        → ∃ v, lookupField fs "description" = some v ∧ truthy v = true)
    ∧ ((∃ s ∈ segs, "主要语言: ".data <+: s.data)
        → ∃ v, lookupField fs "language" = some v ∧ truthy v = true)
    ∧ ((∃ s ∈ segs, "主题标签: ".data <+: s.data)
        → ∃ v, lookupField fs "topics" = some v ∧ truthy v = true)
    ∧ (∀ s ∈ segs, ¬ ("clone_url".data <+: s.data)) := by
  obtain ⟨ts, hts, rfl⟩ := repoSingleSegs_obj loc fs segs h
  refine ⟨⟨?_, ?_⟩, ?_, ?_, ?_, ?_⟩
  · rintro ⟨s, hs, hp⟩
    simp only [List.mem_append, List.mem_singleton] at hs
    rcases hs with ((((((rfl | hs) | rfl) | hs) | hs) | hs) | rfl)
    · exact absurd hp (seg_label_mismatch _ _ 0 (by decide) (by decide) (by decide))
    · obtain ⟨w, hv, ht, rfl⟩ := mem_condSeg hs
      exact absurd hp (seg_label_mismatch _ _ 0 (by decide) (by decide) (by decide))
    · exact absurd hp (seg_label_mismatch _ _ 0 (by decide) (by decide) (by decide))
    · obtain ⟨w, hv, ht, rfl⟩ := mem_condSeg hs
      exact absurd hp (seg_label_mismatch _ _ 0 (by decide) (by decide) (by decide))
    · obtain ⟨w, hv, ht, rfl⟩ := mem_condSeg hs
      exact ⟨w, hv, ht⟩
    · obtain ⟨w, hv, ht, rest, rfl⟩ := mem_topicsSegs hts hs
      exact absurd hp (seg_label_mismatch₂ _ 0 (by decide) (by decide) (by decide))
    · exact absurd hp (seg_label_mismatch _ _ 0 (by decide) (by decide) (by decide))
  · rintro ⟨v, hv, ht⟩
    rw [hv]
    refine ⟨"星标数: " ++ jvalDisplay v ++ "\n",
      List.mem_append_left _ (List.mem_append_left _ (List.mem_append_right _
        (condSeg_mem_self ht))), seg_label_starts _ _ _⟩
  · rintro ⟨s, hs, hp⟩
    simp only [List.mem_append, List.mem_singleton] at hs
    rcases hs with ((((((rfl | hs) | rfl) | hs) | hs) | hs) | rfl)
    · exact absurd hp (seg_label_mismatch _ _ 0 (by decide) (by decide) (by decide))
    · obtain ⟨w, hv, ht, rfl⟩ := mem_condSeg hs
      exact ⟨w, hv, ht⟩
    · exact absurd hp (seg_label_mismatch _ _ 0 (by decide) (by decide) (by decide))
    · obtain ⟨w, hv, ht, rfl⟩ := mem_condSeg hs
      exact absurd hp (seg_label_mismatch _ _ 0 (by decide) (by decide) (by decide))
    · obtain ⟨w, hv, ht, rfl⟩ := mem_condSeg hs
      exact absurd hp (seg_label_mismatch _ _ 0 (by decide) (by decide) (by decide))
    · obtain ⟨w, hv, ht, rest, rfl⟩ := mem_topicsSegs hts hs
      exact absurd hp (seg_label_mismatch₂ _ 0 (by decide) (by decide) (by decide))
    · exact absurd hp (seg_label_mismatch _ _ 0 (by decide) (by decide) (by decide))
  · rintro ⟨s, hs, hp⟩
    simp only [List.mem_append, List.mem_singleton] at hs
    rcases hs with ((((((rfl | hs) | rfl) | hs) | hs) | hs) | rfl)
    · exact absurd hp (seg_label_mismatch _ _ 0 (by decide) (by decide) (by decide))
    · obtain ⟨w, hv, ht, rfl⟩ := mem_condSeg hs
      exact absurd hp (seg_label_mismatch _ _ 0 (by decide) (by decide) (by decide))
    · exact absurd hp (seg_label_mismatch _ _ 0 (by decide) (by decide) (by decide))
    · obtain ⟨w, hv, ht, rfl⟩ := mem_condSeg hs
      exact ⟨w, hv, ht⟩
    · obtain ⟨w, hv, ht, rfl⟩ := mem_condSeg hs
      exact absurd hp (seg_label_mismatch _ _ 0 (by decide) (by decide) (by decide))
    · obtain ⟨w, hv, ht, rest, rfl⟩ := mem_topicsSegs hts hs
      exact absurd hp (seg_label_mismatch₂ _ 1 (by decide) (by decide) (by decide))
    · exact absurd hp (seg_label_mismatch _ _ 0 (by decide) (by decide) (by decide))
  · rintro ⟨s, hs, hp⟩
    simp only [List.mem_append, List.mem_singleton] at hs
    rcases hs with ((((((rfl | hs) | rfl) | hs) | hs) | hs) | rfl)
    · exact absurd hp (seg_label_mismatch _ _ 0 (by decide) (by decide) (by decide))
    · obtain ⟨w, hv, ht, rfl⟩ := mem_condSeg hs
      exact absurd hp (seg_label_mismatch _ _ 0 (by decide) (by decide) (by decide))
    · exact absurd hp (seg_label_mismatch _ _ 0 (by decide) (by decide) (by decide))
    · obtain ⟨w, hv, ht, rfl⟩ := mem_condSeg hs
      exact absurd hp (seg_label_mismatch _ _ 1 (by decide) (by decide) (by decide))
    · obtain ⟨w, hv, ht, rfl⟩ := mem_condSeg hs
      exact absurd hp (seg_label_mismatch _ _ 0 (by decide) (by decide) (by decide))
    · obtain ⟨w, hv, ht, rest, rfl⟩ := mem_topicsSegs hts hs
      exact ⟨w, hv, ht⟩
    · exact absurd hp (seg_label_mismatch _ _ 0 (by decide) (by decide) (by decide))
  · intro s hs hp
    simp only [List.mem_append, List.mem_singleton] at hs
    rcases hs with ((((((rfl | hs) | rfl) | hs) | hs) | hs) | rfl)
    · exact absurd hp (seg_label_mismatch _ _ 0 (by decide) (by decide) (by decide))
    · obtain ⟨w, hv, ht, rfl⟩ := mem_condSeg hs
      exact absurd hp (seg_label_mismatch _ _ 0 (by decide) (by decide) (by decide))
    · exact absurd hp (seg_label_mismatch _ _ 0 (by decide) (by decide) (by decide))
    · obtain ⟨w, hv, ht, rfl⟩ := mem_condSeg hs
      exact absurd hp (seg_label_mismatch _ _ 0 (by decide) (by decide) (by decide))
    · obtain ⟨w, hv, ht, rfl⟩ := mem_condSeg hs
      exact absurd hp (seg_label_mismatch _ _ 0 (by decide) (by decide) (by decide))
    · obtain ⟨w, hv, ht, rest, rfl⟩ := mem_topicsSegs hts hs
      exact absurd hp (seg_label_mismatch₂ _ 0 (by decide) (by decide) (by decide))
    · exact absurd hp (seg_label_mismatch _ _ 0 (by decide) (by decide) (by decide))

/-- Witness for C10 at a repository record with five stars. -/
theorem c10_repo_conditional_lines_witness :
    ∃ s ∈ ["仓库: r\n", "链接: undefined\n", "星标数: 5\n",
        "更新于: 1/1/2024, 12:00:00 AM\n"],
      "星标数: ".data <+: s.data :=
  (c10_repo_conditional_lines locConst
      [("name", .str "r"), ("stars", .num 5), ("updated_at", .str "2024-01-01")]
      ["仓库: r\n", "链接: undefined\n", "星标数: 5\n",
        "更新于: 1/1/2024, 12:00:00 AM\n"] rfl).1.mpr
    ⟨.num 5, rfl, rfl⟩

theorem lookupField_eq_none_of (l : List (String × JVal)) (k : String)
    (h : ∀ p ∈ l, p.1 ≠ k) : lookupField l k = none := by
  induction l with
  | nil => rfl
  | cons p rest ih =>
      obtain ⟨k', v⟩ := p
      have hk' : k' ≠ k := h (k', v) (List.mem_cons_self _ _)
      simp only [lookupField, if_neg hk']
      exact ih fun q hq => h q (List.mem_cons_of_mem _ hq)

theorem lookup_none_of_sub (gs : List (String × JVal))
    (hsub : ∀ p ∈ gs, p.1 ∈ keysToKeep) (key : String) (hk : key ∉ keysToKeep) :
    lookupField gs key = none :=
  lookupField_eq_none_of _ _ fun p hp he => hk (he ▸ hsub p hp)

theorem flatRefSpec_none (gs : List (String × JVal)) (key : String)
    (h : lookupField gs key = none) : flatRefSpec gs key = none := by
  unfold flatRefSpec
  rw [h]

theorem removeExcessive_sub (gs : List (String × JVal))
    (hsub : ∀ p ∈ gs, p.1 ∈ keysToKeep) :
    removeExcessiveFields (.obj gs) = .ok (keptList gs) := by
  rw [removeExcessiveFields_obj,
    flatRefSpec_none _ _ (lookup_none_of_sub gs hsub "owner" (by decide)),
    flatRefSpec_none _ _ (lookup_none_of_sub gs hsub "user" (by decide))]
  simp [optField]

theorem keptList_sub (fs : List (String × JVal)) :
    ∀ p ∈ keptList fs, p.1 ∈ keysToKeep := by
  rintro ⟨k, v⟩ hp
  simp only [keptList] at hp
  exact (mem_filterMap_keys hp).1

theorem stringLength_append (a b : String) : (a ++ b).length = a.length + b.length := by
  show (a ++ b).data.length = a.data.length + b.data.length
  rw [String.data_append, List.length_append]

theorem jsSubstring_length (s : String) (n : Nat) :
    (jsSubstring s n).length = min n s.length := by
  show (s.data.take n).length = min n s.data.length
  rw [List.length_take]

theorem take_append_take (l m : List Char) (n : Nat) (hn : n ≤ l.length) :
    (l.take n ++ m).take n = l.take n := by
  rw [List.take_append_eq_append_take, List.length_take, min_eq_left hn,
    Nat.sub_self, List.take_zero, List.append_nil, List.take_take, min_self]

theorem jsSubstring_trunc_fix (s : String) (n : Nat) (hn : n ≤ s.length) (tail : String) :
    jsSubstring (jsSubstring s n ++ tail) n = jsSubstring s n := by
  show (⟨(s.data.take n ++ tail.data).take n⟩ : String) = ⟨s.data.take n⟩
  rw [take_append_take s.data tail.data n hn]

theorem trunc_idem (k : String) (v : JVal) : truncVal k (truncVal k v) = truncVal k v := by
  cases v with
  | str s =>
      simp only [truncVal]
      by_cases hc : (k = "body" ∨ k = "description") ∧ 300 < s.length
      · rw [if_pos hc]
        have hlen : (jsSubstring s 300 ++ "...").length = 303 := by
          rw [stringLength_append, jsSubstring_length, min_eq_left (le_of_lt hc.2)]
          rfl
        simp only [truncVal]
        rw [if_pos ⟨hc.1, by rw [hlen]; omega⟩,
          jsSubstring_trunc_fix s 300 (le_of_lt hc.2) "..."]
      · rw [if_neg hc]
        simp only [truncVal]
        rw [if_neg hc]
  | undef => rfl
  | null => rfl
  | bool b => rfl
  | num n => rfl
  | arr xs => rfl
  | obj gs => rfl

theorem keptList_idem (fs : List (String × JVal)) :
    keptList (keptList fs) = keptList fs := by
  apply List.filterMap_congr
  intro k hk
  rw [lookup_keptList fs k hk]
  cases hv : lookupField fs k with
  | none => rfl
  | some v => simp [trunc_idem]

theorem cleanRepoOne_sub (gs : List (String × JVal))
    (hsub : ∀ p ∈ gs, p.1 ∈ keysToKeep) :
    cleanRepoOne (.obj gs) = .ok (keptList gs) := by
  unfold cleanRepoOne
  rw [removeExcessive_sub gs hsub]
  simp [jsGet, bind, Except.bind, pure, Except.pure, condField, optField,
    lookup_none_of_sub gs hsub "topics" (by decide),
    lookup_none_of_sub gs hsub "open_issues_count" (by decide),
    lookup_none_of_sub gs hsub "clone_url" (by decide),
    lookup_none_of_sub gs hsub "stargazers_count" (by decide),
    lookup_none_of_sub gs hsub "visibility" (by decide)]

theorem cleanPrOne_sub (gs : List (String × JVal))
    (hsub : ∀ p ∈ gs, p.1 ∈ keysToKeep) :
    cleanPrOne (.obj gs) = .ok (keptList gs) := by
  unfold cleanPrOne
  rw [removeExcessive_sub gs hsub]
  simp [jsGet, bind, Except.bind, pure, Except.pure, condField, optField, refOf,
    lookup_none_of_sub gs hsub "merged_at" (by decide),
    lookup_none_of_sub gs hsub "head" (by decide),
    lookup_none_of_sub gs hsub "base" (by decide),
    lookup_none_of_sub gs hsub "merged" (by decide)]

theorem cleanIssueOne_sub (gs : List (String × JVal))
    (hsub : ∀ p ∈ gs, p.1 ∈ keysToKeep) :
    cleanIssueOne (.obj gs) = .ok (keptList gs) := by
  unfold cleanIssueOne
  rw [removeExcessive_sub gs hsub]
  simp [jsGet, bind, Except.bind, pure, Except.pure, condField, optField,
    lookup_none_of_sub gs hsub "closed_at" (by decide),
    lookup_none_of_sub gs hsub "labels" (by decide),
    lookup_none_of_sub gs hsub "assignees" (by decide)]

theorem truthy_of_length_pos (u : String) (h : 0 < u.length) : truthy (.str u) = true := by
  simp only [truthy, bne_iff_ne, ne_eq, decide_eq_true_eq]
  rintro rfl
  exact (by decide : ¬ (0 < ("" : String).length)) h

theorem commentBody_truthy (bv w : JVal) (ht : truthy bv = true)
    (h : commentBody bv = .ok w) : truthy w = true := by
  cases bv with
  | str s =>
      obtain rfl := (Except.ok.inj h).symm
      by_cases hl : 1000 < s.length
      · rw [if_pos hl]
        refine truthy_of_length_pos _ ?_
        rw [stringLength_append, jsSubstring_length, min_eq_left (le_of_lt hl)]
        have : ("..." : String).length = 3 := rfl
        omega
      · rw [if_neg hl]; exact ht
  | arr xs =>
      simp only [commentBody] at h
      split at h
      · exact absurd h (by simp)
      · obtain rfl := (Except.ok.inj h).symm; rfl
  | obj gs =>
      have hred : commentBody (.obj gs)
          = (match lookupField gs "length" with
            | some (.num n) => if 1000 < n then .error () else .ok (.obj gs)
            | _ => .ok (.obj gs)) := rfl
      rw [hred] at h
      cases hL : lookupField gs "length" with
      | none =>
          rw [hL] at h
          obtain rfl := (Except.ok.inj h).symm; rfl
      | some v =>
          rw [hL] at h
          cases v with
          | num n =>
              split at h
              · split at h
                · exact absurd h (by simp)
                · obtain rfl := (Except.ok.inj h).symm; rfl
              · rename_i hfalse
                exact absurd rfl (hfalse n)
          | undef => obtain rfl := (Except.ok.inj h).symm; rfl
          | null => obtain rfl := (Except.ok.inj h).symm; rfl
          | bool b => obtain rfl := (Except.ok.inj h).symm; rfl
          | str u => obtain rfl := (Except.ok.inj h).symm; rfl
          | arr ys => obtain rfl := (Except.ok.inj h).symm; rfl
          | obj gs2 => obtain rfl := (Except.ok.inj h).symm; rfl
  | undef => simp [truthy] at ht
  | null => simp [truthy] at ht
  | bool b => obtain rfl := (Except.ok.inj h).symm; exact ht
  | num n => obtain rfl := (Except.ok.inj h).symm; exact ht

theorem commentBody_idem (bv w : JVal) (h : commentBody bv = .ok w) :
    commentBody w = .ok w := by
  cases bv with
  | str s =>
      obtain rfl := (Except.ok.inj h).symm
      by_cases hl : 1000 < s.length
      · rw [if_pos hl]
        have hlen : (jsSubstring s 1000 ++ "...").length = 1003 := by
          rw [stringLength_append, jsSubstring_length, min_eq_left (le_of_lt hl)]
          rfl
        simp only [commentBody, hlen]
        rw [if_pos (by omega : (1000 : Nat) < 1003),
          jsSubstring_trunc_fix s 1000 (le_of_lt hl) "..."]
      · rw [if_neg hl]
        simp only [commentBody]
        rw [if_neg hl]
  | arr xs =>
      simp only [commentBody] at h
      split at h
      · exact absurd h (by simp)
      · obtain rfl := (Except.ok.inj h).symm
        rename_i hlen
        simp only [commentBody]
        rw [if_neg hlen]
  | obj gs =>
      have hred : commentBody (.obj gs)
          = (match lookupField gs "length" with
            | some (.num n) => if 1000 < n then .error () else .ok (.obj gs)
            | _ => .ok (.obj gs)) := rfl
      rw [hred] at h
      cases hL : lookupField gs "length" with
      | none =>
          rw [hL] at h
          obtain rfl := (Except.ok.inj h).symm
          rw [hred, hL]
      | some v =>
          rw [hL] at h
          cases v with
          | num n =>
              split at h
              · rename_i n' heq
                split at h
                · exact absurd h (by simp)
                · obtain rfl := (Except.ok.inj h).symm
                  rename_i hn
                  have hL2 : lookupField gs "length" = some (JVal.num n') := hL.trans heq
                  have hgoal : commentBody (.obj gs)
                      = if 1000 < n' then Except.error () else Except.ok (JVal.obj gs) := by
                    rw [hred, hL2]
                  rw [hgoal, if_neg hn]
              · rename_i hfalse
                exact absurd rfl (hfalse n)
          | undef => obtain rfl := (Except.ok.inj h).symm; rw [hred, hL]
          | null => obtain rfl := (Except.ok.inj h).symm; rw [hred, hL]
          | bool b => obtain rfl := (Except.ok.inj h).symm; rw [hred, hL]
          | str u => obtain rfl := (Except.ok.inj h).symm; rw [hred, hL]
          | arr ys => obtain rfl := (Except.ok.inj h).symm; rw [hred, hL]
          | obj gs2 => obtain rfl := (Except.ok.inj h).symm; rw [hred, hL]
  | undef => obtain rfl := (Except.ok.inj h).symm; rfl
  | null => obtain rfl := (Except.ok.inj h).symm; rfl
  | bool b => obtain rfl := (Except.ok.inj h).symm; rfl
  | num n => obtain rfl := (Except.ok.inj h).symm; rfl

theorem lookup_optField_self (k : String) (x : Option JVal) :
    lookupField (optField k x) k = x := by
  cases x <;> simp [optField, lookupField]

theorem cleanCommentOne_obj (gs bf : List (String × JVal)) (r : Option JVal)
    (hbf : commentBodyFields (lookupField gs "body") = .ok bf)
    (hr : refOf (lookupField gs "user") "login" = .ok r) :
    cleanCommentOne (.obj gs) = .ok (optField "id" (lookupField gs "id")
      ++ optField "created_at" (lookupField gs "created_at")
      ++ optField "updated_at" (lookupField gs "updated_at")
      ++ optField "html_url" (lookupField gs "html_url")
      ++ bf ++ optField "user" r) := by
  unfold cleanCommentOne
  simp [jsGet, bind, Except.bind, pure, Except.pure, hbf, hr]

theorem lookup_comment_skip (i ca ua hu : Option JVal) (bf uf : List (String × JVal))
    (k : String) (h1 : "id" ≠ k) (h2 : "created_at" ≠ k) (h3 : "updated_at" ≠ k)
    (h4 : "html_url" ≠ k) :
    lookupField (optField "id" i ++ optField "created_at" ca ++ optField "updated_at" ua
      ++ optField "html_url" hu ++ bf ++ uf) k
      = (lookupField bf k).or (lookupField uf k) := by
  rw [lookupField_append, lookupField_append, lookupField_append, lookupField_append,
    lookupField_append, lookup_optField_ne _ h1, lookup_optField_ne _ h2,
    lookup_optField_ne _ h3, lookup_optField_ne _ h4]
  simp [Option.or_assoc]

theorem lookup_comment_id (i ca ua hu : Option JVal) (bf uf : List (String × JVal))
    (hbf : lookupField bf "id" = none) (huf : lookupField uf "id" = none) :
    lookupField (optField "id" i ++ optField "created_at" ca ++ optField "updated_at" ua
      ++ optField "html_url" hu ++ bf ++ uf) "id" = i := by
  rw [lookupField_append, lookupField_append, lookupField_append, lookupField_append,
    lookupField_append, lookup_optField_self, hbf, huf,
    lookup_optField_ne _ (by decide : "created_at" ≠ "id"),
    lookup_optField_ne _ (by decide : "updated_at" ≠ "id"),
    lookup_optField_ne _ (by decide : "html_url" ≠ "id")]
  simp

theorem lookup_comment_ca (i ca ua hu : Option JVal) (bf uf : List (String × JVal))
    (hbf : lookupField bf "created_at" = none) (huf : lookupField uf "created_at" = none) :
    lookupField (optField "id" i ++ optField "created_at" ca ++ optField "updated_at" ua
      ++ optField "html_url" hu ++ bf ++ uf) "created_at" = ca := by
  rw [lookupField_append, lookupField_append, lookupField_append, lookupField_append,
    lookupField_append, lookup_optField_self, hbf, huf,
    lookup_optField_ne _ (by decide : "id" ≠ "created_at"),
    lookup_optField_ne _ (by decide : "updated_at" ≠ "created_at"),
    lookup_optField_ne _ (by decide : "html_url" ≠ "created_at")]
  simp

theorem lookup_comment_ua (i ca ua hu : Option JVal) (bf uf : List (String × JVal))
    (hbf : lookupField bf "updated_at" = none) (huf : lookupField uf "updated_at" = none) :
    lookupField (optField "id" i ++ optField "created_at" ca ++ optField "updated_at" ua
      ++ optField "html_url" hu ++ bf ++ uf) "updated_at" = ua := by
  rw [lookupField_append, lookupField_append, lookupField_append, lookupField_append,
    lookupField_append, lookup_optField_self, hbf, huf,
    lookup_optField_ne _ (by decide : "id" ≠ "updated_at"),
    lookup_optField_ne _ (by decide : "created_at" ≠ "updated_at"),
    lookup_optField_ne _ (by decide : "html_url" ≠ "updated_at")]
  simp

theorem lookup_comment_hu (i ca ua hu : Option JVal) (bf uf : List (String × JVal))
    (hbf : lookupField bf "html_url" = none) (huf : lookupField uf "html_url" = none) :
    lookupField (optField "id" i ++ optField "created_at" ca ++ optField "updated_at" ua
      ++ optField "html_url" hu ++ bf ++ uf) "html_url" = hu := by
  rw [lookupField_append, lookupField_append, lookupField_append, lookupField_append,
    lookupField_append, lookup_optField_self, hbf, huf,
    lookup_optField_ne _ (by decide : "id" ≠ "html_url"),
    lookup_optField_ne _ (by decide : "created_at" ≠ "html_url"),
    lookup_optField_ne _ (by decide : "updated_at" ≠ "html_url")]
  simp

theorem cleanCommentOne_idem (gs out : List (String × JVal))
    (hsub : ∀ p ∈ gs, p.1 ∈ keysToKeep)
    (h : cleanCommentOne (.obj gs) = .ok out) :
    cleanCommentOne (.obj out) = .ok out := by
  have huser : lookupField gs "user" = none := lookup_none_of_sub gs hsub "user" (by decide)
  have hr : refOf (lookupField gs "user") "login" = .ok none := by rw [huser]; rfl
  have hcb : ∃ bf, commentBodyFields (lookupField gs "body") = .ok bf := by
    cases hx : commentBodyFields (lookupField gs "body") with
    | error e =>
        exfalso
        unfold cleanCommentOne at h
        simp [jsGet, hx, bind, Except.bind] at h
    | ok bf => exact ⟨bf, rfl⟩
  obtain ⟨bf, hcb⟩ := hcb
  have hshape : bf = [] ∨ ∃ w, bf = [("body", w)] ∧ truthy w = true ∧ commentBody w = .ok w := by
    cases hbv : lookupField gs "body" with
    | none =>
        rw [hbv] at hcb
        exact Or.inl (Except.ok.inj hcb).symm
    | some bv =>
        rw [hbv] at hcb
        by_cases ht : truthy bv = true
        · simp only [commentBodyFields, ht, if_true] at hcb
          cases hw : commentBody bv with
          | error e => rw [hw] at hcb; exact absurd hcb (by simp [bind, Except.bind])
          | ok w =>
              rw [hw] at hcb
              simp only [bind, Except.bind, pure, Except.pure] at hcb
              refine Or.inr ⟨w, (Except.ok.inj hcb).symm, commentBody_truthy bv w ht hw,
                commentBody_idem bv w hw⟩
        · simp only [commentBodyFields, ht, if_false] at hcb
          exact Or.inl (Except.ok.inj hcb).symm
  rw [cleanCommentOne_obj gs bf none hcb hr] at h
  obtain rfl := (Except.ok.inj h).symm
  rcases hshape with rfl | ⟨w, rfl, htw, hcw⟩
  · have hid := lookup_comment_id (lookupField gs "id") (lookupField gs "created_at")
      (lookupField gs "updated_at") (lookupField gs "html_url") [] (optField "user" none)
      rfl rfl
    have hca := lookup_comment_ca (lookupField gs "id") (lookupField gs "created_at")
      (lookupField gs "updated_at") (lookupField gs "html_url") [] (optField "user" none)
      rfl rfl
    have hua := lookup_comment_ua (lookupField gs "id") (lookupField gs "created_at")
      (lookupField gs "updated_at") (lookupField gs "html_url") [] (optField "user" none)
      rfl rfl
    have hhu := lookup_comment_hu (lookupField gs "id") (lookupField gs "created_at")
      (lookupField gs "updated_at") (lookupField gs "html_url") [] (optField "user" none)
      rfl rfl
    have hbody : lookupField (optField "id" (lookupField gs "id")
        ++ optField "created_at" (lookupField gs "created_at")
        ++ optField "updated_at" (lookupField gs "updated_at")
        ++ optField "html_url" (lookupField gs "html_url")
        ++ [] ++ optField "user" none) "body" = none :=
      (lookup_comment_skip (lookupField gs "id") (lookupField gs "created_at")
        (lookupField gs "updated_at") (lookupField gs "html_url") [] (optField "user" none)
        "body" (by decide) (by decide) (by decide) (by decide)).trans rfl
    have husr : lookupField (optField "id" (lookupField gs "id")
        ++ optField "created_at" (lookupField gs "created_at")
        ++ optField "updated_at" (lookupField gs "updated_at")
        ++ optField "html_url" (lookupField gs "html_url")
        ++ [] ++ optField "user" none) "user" = none :=
      (lookup_comment_skip (lookupField gs "id") (lookupField gs "created_at")
        (lookupField gs "updated_at") (lookupField gs "html_url") [] (optField "user" none)
        "user" (by decide) (by decide) (by decide) (by decide)).trans rfl
    rw [cleanCommentOne_obj _ [] none (by rw [hbody]; rfl) (by rw [husr]; rfl),
      hid, hca, hua, hhu]
  · have hid := lookup_comment_id (lookupField gs "id") (lookupField gs "created_at")
      (lookupField gs "updated_at") (lookupField gs "html_url") [("body", w)]
      (optField "user" none) (by simp [lookupField]) rfl
    have hca := lookup_comment_ca (lookupField gs "id") (lookupField gs "created_at")
      (lookupField gs "updated_at") (lookupField gs "html_url") [("body", w)]
      (optField "user" none) (by simp [lookupField]) rfl
    have hua := lookup_comment_ua (lookupField gs "id") (lookupField gs "created_at")
      (lookupField gs "updated_at") (lookupField gs "html_url") [("body", w)]
      (optField "user" none) (by simp [lookupField]) rfl
    have hhu := lookup_comment_hu (lookupField gs "id") (lookupField gs "created_at")
      (lookupField gs "updated_at") (lookupField gs "html_url") [("body", w)]
      (optField "user" none) (by simp [lookupField]) rfl
    have hbody' : lookupField (optField "id" (lookupField gs "id")
        ++ optField "created_at" (lookupField gs "created_at")
        ++ optField "updated_at" (lookupField gs "updated_at")
        ++ optField "html_url" (lookupField gs "html_url")
        ++ [("body", w)] ++ optField "user" none) "body" = some w :=
      (lookup_comment_skip (lookupField gs "id") (lookupField gs "created_at")
        (lookupField gs "updated_at") (lookupField gs "html_url") [("body", w)]
        (optField "user" none) "body" (by decide) (by decide) (by decide) (by decide)).trans
        rfl
    have husr' : lookupField (optField "id" (lookupField gs "id")
        ++ optField "created_at" (lookupField gs "created_at")
        ++ optField "updated_at" (lookupField gs "updated_at")
        ++ optField "html_url" (lookupField gs "html_url")
        ++ [("body", w)] ++ optField "user" none) "user" = none :=
      (lookup_comment_skip (lookupField gs "id") (lookupField gs "created_at")
        (lookupField gs "updated_at") (lookupField gs "html_url") [("body", w)]
        (optField "user" none) "user" (by decide) (by decide) (by decide) (by decide)).trans
        rfl
    have hbf2 : commentBodyFields (some w) = .ok [("body", w)] := by
      simp [commentBodyFields, htw, hcw, bind, Except.bind, pure, Except.pure]
    rw [cleanCommentOne_obj _ [("body", w)] none (by rw [hbody']; exact hbf2)
        (by rw [husr']; rfl), hid, hca, hua, hhu]

/-- C4: idempotence fails for kind user in the earlier revision: cleaning an
allow-list-only object (its single field login is in keysToKeep) yields a
formatted string, and cleaning that string again yields a different string,
because a string has no login property. -/
theorem c4_counterexample :
    cleanGitHubResponseV0 locConst (.obj [("login", .str "a")]) "user" = .str "用户: a\n"
    ∧ cleanGitHubResponseV0 locConst
        (cleanGitHubResponseV0 locConst (.obj [("login", .str "a")]) "user") "user"
      = .str "用户: undefined\n"
    ∧ ("用户: a\n" : String) ≠ "用户: undefined\n" :=
  ⟨rfl, rfl, by decide⟩

/-- C4 amended: for every kind other than 'user' (whose case in the earlier
revision returns a formatted string whose re-cleaning differs), cleaning is
idempotent on any object whose field names all lie in the generic
allow-list: re-cleaning the cleaned record is a no-op.  This includes the
1000/300-character truncation, which is idempotent. -/
theorem c4_idempotent_amended (loc : JVal → String) (t : String)
    (fs : List (String × JVal)) (hu : t ≠ "user")
    (hsub : ∀ p ∈ fs, p.1 ∈ keysToKeep) :
    cleanGitHubResponseV0 loc (cleanGitHubResponseV0 loc (.obj fs) t) t
      = cleanGitHubResponseV0 loc (.obj fs) t := by
  by_cases h5 : t = "comments"
  · subst h5
    have hcm : lookupField fs "comments" = none := lookup_none_of_sub fs hsub _ (by decide)
    have hinner : cleanInnerV0 loc (.obj fs) "comments" = .ok (.str "无法获取评论数据。") := by
      show cleanCommentsCase loc (.obj fs) = _
      unfold cleanCommentsCase
      simp [jsGet, hcm, bind, Except.bind, pure, Except.pure]
    have h1 : cleanGitHubResponseV0 loc (.obj fs) "comments" = .str "无法获取评论数据。" := by
      simp [cleanGitHubResponseV0, hinner]
    rw [h1]
    have h2 : cleanInnerV0 loc (.str "无法获取评论数据。") "comments"
        = .ok (.str "无法获取评论数据。") := rfl
    simp [cleanGitHubResponseV0, h2]
  by_cases h4 : t = "comment"
  · subst h4
    cases hi : cleanCommentOne (.obj fs) with
    | error e =>
        have hinner : cleanInnerV0 loc (.obj fs) "comment" = .error e := by
          simp [cleanInnerV0, hi, bind, Except.bind]
        have hx : cleanGitHubResponseV0 loc (.obj fs) "comment" = .obj fs := by
          simp [cleanGitHubResponseV0, hinner]
        rw [hx]
        exact hx
    | ok out =>
        have hinner : cleanInnerV0 loc (.obj fs) "comment" = .ok (.obj out) := by
          simp [cleanInnerV0, hi, bind, Except.bind, pure, Except.pure]
        have hx : cleanGitHubResponseV0 loc (.obj fs) "comment" = .obj out := by
          simp [cleanGitHubResponseV0, hinner]
        rw [hx]
        have hstab := cleanCommentOne_idem fs out hsub hi
        have hinner2 : cleanInnerV0 loc (.obj out) "comment" = .ok (.obj out) := by
          simp [cleanInnerV0, hstab, bind, Except.bind, pure, Except.pure]
        simp [cleanGitHubResponseV0, hinner2]
  by_cases h1 : t = "repository"
  · subst h1
    have hinner : cleanInnerV0 loc (.obj fs) "repository" = .ok (.obj (keptList fs)) := by
      simp [cleanInnerV0, cleanInnerTS, cleanRepoOne_sub fs hsub, bind, Except.bind,
        pure, Except.pure]
    have hx : cleanGitHubResponseV0 loc (.obj fs) "repository" = .obj (keptList fs) := by
      simp [cleanGitHubResponseV0, hinner]
    rw [hx]
    have hstab : cleanRepoOne (.obj (keptList fs)) = .ok (keptList fs) := by
      rw [cleanRepoOne_sub (keptList fs) (keptList_sub fs), keptList_idem]
    have hinner2 : cleanInnerV0 loc (.obj (keptList fs)) "repository"
        = .ok (.obj (keptList fs)) := by
      simp [cleanInnerV0, cleanInnerTS, hstab, bind, Except.bind, pure, Except.pure]
    simp [cleanGitHubResponseV0, hinner2]
  by_cases h2 : t = "pull_request"
  · subst h2
    have hinner : cleanInnerV0 loc (.obj fs) "pull_request" = .ok (.obj (keptList fs)) := by
      simp [cleanInnerV0, cleanInnerTS, cleanPrOne_sub fs hsub, bind, Except.bind,
        pure, Except.pure]
    have hx : cleanGitHubResponseV0 loc (.obj fs) "pull_request" = .obj (keptList fs) := by
      simp [cleanGitHubResponseV0, hinner]
    rw [hx]
    have hstab : cleanPrOne (.obj (keptList fs)) = .ok (keptList fs) := by
      rw [cleanPrOne_sub (keptList fs) (keptList_sub fs), keptList_idem]
    have hinner2 : cleanInnerV0 loc (.obj (keptList fs)) "pull_request"
        = .ok (.obj (keptList fs)) := by
      simp [cleanInnerV0, cleanInnerTS, hstab, bind, Except.bind, pure, Except.pure]
    simp [cleanGitHubResponseV0, hinner2]
  by_cases h3 : t = "issue"
  · subst h3
    have hinner : cleanInnerV0 loc (.obj fs) "issue" = .ok (.obj (keptList fs)) := by
      simp [cleanInnerV0, cleanInnerTS, cleanIssueOne_sub fs hsub, bind, Except.bind,
        pure, Except.pure]
    have hx : cleanGitHubResponseV0 loc (.obj fs) "issue" = .obj (keptList fs) := by
      simp [cleanGitHubResponseV0, hinner]
    rw [hx]
    have hstab : cleanIssueOne (.obj (keptList fs)) = .ok (keptList fs) := by
      rw [cleanIssueOne_sub (keptList fs) (keptList_sub fs), keptList_idem]
    have hinner2 : cleanInnerV0 loc (.obj (keptList fs)) "issue"
        = .ok (.obj (keptList fs)) := by
      simp [cleanInnerV0, cleanInnerTS, hstab, bind, Except.bind, pure, Except.pure]
    simp [cleanGitHubResponseV0, hinner2]
  · have hd : cleanElemV0 t
        = fun x => removeExcessiveFields x >>= fun gs => pure (JVal.obj gs) := by
      funext x
      simp [cleanElemV0, h1, h2, h3, h4]
    have he : cleanElemV0 t (.obj fs) = .ok (.obj (keptList fs)) := by
      rw [hd]
      simp [removeExcessive_sub fs hsub, bind, Except.bind, pure, Except.pure]
    have hx : cleanGitHubResponseV0 loc (.obj fs) t = .obj (keptList fs) := by
      simp [cleanGitHubResponseV0, cleanInnerV0_obj loc t fs hu h5, he]
    rw [hx]
    have he2 : cleanElemV0 t (.obj (keptList fs)) = .ok (.obj (keptList fs)) := by
      rw [hd]
      simp [removeExcessive_sub (keptList fs) (keptList_sub fs), keptList_idem,
        bind, Except.bind, pure, Except.pure]
    simp [cleanGitHubResponseV0, cleanInnerV0_obj loc t (keptList fs) hu h5, he2]

/-- Witness for C4 amended at kind repository and an allow-list-only
object. -/
theorem c4_idempotent_amended_witness :
    cleanGitHubResponseV0 locConst
        (cleanGitHubResponseV0 locConst (.obj [("name", JVal.str "r")]) "repository")
        "repository"
      = cleanGitHubResponseV0 locConst (.obj [("name", JVal.str "r")]) "repository" :=
  c4_idempotent_amended locConst "repository" [("name", JVal.str "r")] (by decide)
    (by decide)

end GitHubMCP
